import Mathlib

/-!
Verification of the llmos-ui resource store / live-synchronization engine.

Shallow embedding of `src/composables/steve/type.ts` (the Steve store:
`load`, `loadAll`, `findAll`, `remove`, the watch state machine, the
websocket message dispatcher, `resyncWatch`), `src/server/utils/api.ts`
(`apiList` depagination) and `src/server/routes/v1/modelfiles/index.ts`
(the modelfiles route handler).

JavaScript-level semantics that matter are modelled explicitly:
`undefined`/missing fields are `Option`, string falsiness (`""` is falsy),
`Number.parseInt` returning NaN (modelled as `none`), `Math.max` absorbing
NaN, JS `Map` insertion-order set/delete, and `Array.prototype.sort` as a
stable sort driven by the user comparator.

Helpers that live in repository modules absent from the provided sources
(`@/composables/steve/normalize`, `@/utils/array`,
`@/composables/steve/decorate`, `@/config/schemas`, the per-type stores
registered in `typeStores`) are modelled from the spec; each such
definition carries a doc comment starting with `Modelled from the spec:`.
-/

/-! ## JavaScript-flavoured primitives -/

/-- JS string truthiness for an optional string: `undefined` and `""` are falsy. -/
def jsTruthyStr : Option String → Bool
  | none => false
  | some s => s ≠ ""

/-- JS `a || b` on optional strings (`""` falls through like `undefined`). -/
def jsOrStr (a b : Option String) : Option String :=
  if jsTruthyStr a then a else b

/-- `Number.parseInt(s, 10)` restricted to the shapes the store produces:
the longest leading run of decimal digits, `none` for NaN (no leading digit). -/
def jsParseInt (s : String) : Option Int :=
  let ds := s.data.takeWhile Char.isDigit
  if ds.isEmpty then none
  else some (Int.ofNat (ds.foldl (fun n c => n * 10 + (c.toNat - 48)) 0))

/-- `Math.max` with NaN absorption: any NaN (`none`) operand poisons the result. -/
def jsMaxNaN : Option Int → Option Int → Option Int
  | some a, some b => some (max a b)
  | _, _ => none

/-- Whether the character list `pat` occurs as a contiguous run inside `l`. -/
def listHasRun : List Char → List Char → Bool
  | _, [] => true
  | [], _ :: _ => false
  | a :: l', pat =>
      if pat.isPrefixOf (a :: l') then true else listHasRun l' pat

/-- JS `s.includes(pat)`. -/
def jsIncludes (s pat : String) : Bool :=
  listHasRun s.data pat.data

/-- `${x}` for an optional string: `undefined` prints as `"undefined"`. -/
def jsTemplate : Option String → String
  | none => "undefined"
  | some s => s

/-- `s.startsWith(pre)`, kept kernel-computable. -/
def jsStartsWith (s pre : String) : Bool :=
  pre.data.isPrefixOf s.data

/-- `s.endsWith(post)`, kept kernel-computable. -/
def jsEndsWith (s post : String) : Bool :=
  post.data.reverse.isPrefixOf s.data.reverse

/-- Drop the first `n` characters, kept kernel-computable. -/
def jsDropChars (s : String) (n : Nat) : String :=
  ⟨s.data.drop n⟩

/-- Drop every trailing `'/'`, JS `url.replace(/\/*$/g, "")`. -/
def stripTrailSlashes (s : String) : String :=
  ⟨(s.data.reverse.dropWhile (· = '/')).reverse⟩

/-- Drop one trailing `'/'`, JS `baseUrl.replace(/\/$/, "")`. -/
def dropOneTrailSlash (s : String) : String :=
  if jsEndsWith s "/" then ⟨s.data.dropLast⟩ else s

/-- Stable insertion step for the JS `Array.prototype.sort` model: `a` is
inserted before the first element it does not strictly follow. -/
def jsInsert (cmp : α → α → Int) (a : α) : List α → List α
  | [] => [a]
  | b :: rest => if cmp a b > 0 then b :: jsInsert cmp a rest else a :: b :: rest

/-- `Array.prototype.sort(cmp)` as the stable sort mandated by ES2019+. -/
def jsSortStable (cmp : α → α → Int) : List α → List α
  | [] => []
  | a :: rest => jsInsert cmp a (jsSortStable cmp rest)

/-! ## Data model: resources, decorated entries, type caches -/

/-- `IMetadata` (the fields the store reads). -/
structure IMetadata where
  name : String := ""
  ns : Option String := none
  resourceVersion : Option String := none
  stateTransitioning : Bool := false
  stateError : Bool := false
deriving DecidableEq, Repr

/-- A raw resource payload (`IResource`): `type`, optional `baseType`,
optional `id`, optional `metadata`, plus the fields the verified routes
read — a generic payload field `v`, an `error` string (carried on
`resource.error` events), abstract `labels`, and `links.collection`
(present on schema resources). -/
structure IResource where
  typ : String := ""
  baseType : Option String := none
  id : Option String := none
  metadata : Option IMetadata := none
  v : Int := 0
  error : Option String := none
  labels : List String := []
  collectionUrl : Option String := none
deriving DecidableEq, Repr

/-- Modelled from the spec: the Decorator (§4.4) wraps a raw payload into a
live proxy that is identity-stable across updates; `update` fully replaces
the data fields while preserving object identity.  Object identity is
represented by the `ident` tag allocated at decoration time. -/
structure Entry where
  ident : Nat
  data : IResource
deriving DecidableEq, Repr

/-- Modelled from the spec: the Decorator's `update(newData)` — in-place
replacement of all data fields, identity (`ident`) preserved. -/
def Entry.update (e : Entry) (d : IResource) : Entry :=
  { e with data := d }

/-- JS `Map` keys as the store uses them (`map.set(data[i]["id"], …)` can
receive `undefined`). -/
abbrev JKey := Option String

/-- JS `Map.prototype.get`. -/
def mget (m : List (JKey × Entry)) (k : JKey) : Option Entry :=
  (m.find? (fun p => p.1 = k)).map (·.2)

/-- JS `Map.prototype.set`: replace in place if the key exists, else append. -/
def mset (m : List (JKey × Entry)) (k : JKey) (v : Entry) : List (JKey × Entry) :=
  match m with
  | [] => [(k, v)]
  | (k', v') :: rest => if k' = k then (k, v) :: rest else (k', v') :: mset rest k v

/-- JS `Map.prototype.delete` (for the first — hence only — binding of `k`). -/
def mdel (m : List (JKey × Entry)) (k : JKey) : List (JKey × Entry) :=
  match m with
  | [] => []
  | (k', v') :: rest => if k' = k then rest else (k', v') :: mdel rest k

/-- Record (plain-object) lookup used for `this.map` / `inError` / records
keyed by strings. -/
def rget (m : List (String × String)) (k : String) : Option String :=
  (m.find? (fun p => p.1 = k)).map (·.2)

/-- Record assignment `m[k] = v`. -/
def rset (m : List (String × String)) (k : String) (v : String) :
    List (String × String) :=
  match m with
  | [] => [(k, v)]
  | (k', v') :: rest => if k' = k then (k, v) :: rest else (k', v') :: rset rest k v

/-- Record `delete m[k]`. -/
def rdel (m : List (String × String)) (k : String) : List (String × String) :=
  match m with
  | [] => []
  | (k', v') :: rest => if k' = k then rest else (k', v') :: rdel rest k

/-- Entry-valued record (`this.map : Record<string, IStored<D>>`). -/
def eget (m : List (String × Entry)) (k : String) : Option Entry :=
  (m.find? (fun p => p.1 = k)).map (·.2)

/-- Entry-valued record `delete m[k]`. -/
def edel (m : List (String × Entry)) (k : String) : List (String × Entry) :=
  match m with
  | [] => []
  | (k', v') :: rest => if k' = k then rest else (k', v') :: edel rest k

/-- `removeObject(ary, obj)` — Modelled from the spec (util module
`@/utils/array` is not under `src/`): removes the first occurrence of the
object (identity comparison, represented structurally — `ident` tags make
distinct live objects distinct values). -/
def removeFirst [DecidableEq α] (l : List α) (a : α) : List α :=
  match l with
  | [] => []
  | b :: rest => if b = a then rest else b :: removeFirst rest a

/-- One per-type cache bucket of `ITypes` (`registerType`'s shape). -/
structure TypeCache where
  list : List Entry := []
  haveAll : Bool := false
  haveSelector : List (String × String) := []
  revision : Int := 0
  generation : Int := 0
  map : List (JKey × Entry) := []
deriving DecidableEq, Repr

/-! ## Spec-modelled helpers from modules absent from `src/` -/

/-- Lower-casing by mapping over the character list (the JS
`toLowerCase`, kept kernel-computable). -/
def jsToLower (s : String) : String :=
  ⟨s.data.map Char.toLower⟩

/-- Modelled from the spec: `normalizeType` (§4.1,
`@/composables/steve/normalize` is not under `src/`) — lower-cases the
type name so server aliases map to one canonical key; idempotent. -/
def normalizeType (t : String) : String := jsToLower t

/-- The `SCHEMA` constant — Modelled from the spec: schemas are resources
of type `schema` (§3; `@/config/schemas` is not under `src/`, and
`type.ts` itself compares `type === "schema"`). -/
def SCHEMA : String := "schema"

/-- `NO_WATCH` (`src/composables/steve/type.ts`). -/
def NO_WATCH : String := "NO_WATCH"

/-- `NO_SCHEMA` (`src/composables/steve/type.ts`). -/
def NO_SCHEMA : String := "NO_SCHEMA"

/-- A watch descriptor / outbound `IWatch` object. -/
structure WatchDesc where
  typ : Option String := none
  resourceType : Option String := none
  ns : Option String := none
  id : Option String := none
  selector : Option String := none
  revision : Option String := none
  resourceVersion : Option String := none
  stop : Bool := false
  force : Bool := false
deriving DecidableEq, Repr

/-- Modelled from the spec: `keyForSubscribe` (§4.1) — a deterministic
composite key from type+namespace+id+selector (using `resourceType` when
`type` is absent, as error messages carry `resourceType`). -/
def keyForSubscribe (w : WatchDesc) : String :=
  ((jsOrStr w.typ w.resourceType).getD "") ++ "/" ++ (w.ns.getD "") ++ "/" ++
    (w.id.getD "") ++ "/" ++ (w.selector.getD "")

/-- Modelled from the spec: `watchesAreEquivalent` (§4.1) — true iff
normalized type, namespace, id and selector all match (revision and
resourceVersion excluded). -/
def watchesAreEquivalent (a b : WatchDesc) : Bool :=
  normalizeType (a.typ.getD "") = normalizeType (b.typ.getD "") ∧
    a.ns = b.ns ∧ a.id = b.id ∧ a.selector = b.selector

/-- An inbound websocket message (`IWatchMsg`). -/
structure InMsg where
  name : Option String := none
  ns : Option String := none
  id : Option String := none
  selector : Option String := none
  resourceType : Option String := none
  revision : Option String := none
  reason : Option String := none
  data : Option IResource := none
deriving DecidableEq, Repr

/-- An outbound subscribe frame as `watch` builds it: fields are present
exactly when the corresponding `if (x) msg.x = …` fired. -/
structure OutMsg where
  resourceType : String := ""
  resourceVersion : Option String := none
  ns : Option String := none
  stop : Bool := false
  id : Option String := none
  selector : Option String := none
deriving DecidableEq, Repr

/-- The internal `revision` local of `watch`: either the string taken from
the descriptor or the number refilled from `nextResourceVersion`. -/
inductive JsRev where
  | str (s : String)
  | num (n : Int)
deriving DecidableEq, Repr

/-- JS truthiness of the `revision` local (`""` and `0` are falsy). -/
def jsTruthyRev : Option JsRev → Bool
  | none => false
  | some (.str s) => s ≠ ""
  | some (.num n) => n ≠ 0

/-- `` `${revision}` ``. -/
def jsRevToString : JsRev → String
  | .str s => s
  | .num n => toString n

/-- A queued change (`IQueueAction`). -/
inductive QAct where
  | load
  | remove
  | forgetType
deriving DecidableEq, Repr

/-- `IQueueAction` payload. -/
structure QueueAction where
  action : QAct
  typ : String := ""
  id : JKey := none
  body : Option IResource := none
  event : String := ""
deriving DecidableEq, Repr

/-- `ICollection` — the parsed body of a collection GET. -/
structure ICollection where
  data : List IResource := []
  revision : Option String := none
deriving DecidableEq, Repr

/-- `opt.load` values (`IRequestOpt["load"]`: `"all" | "multi" |
"allIfAuthed" | "none" | boolean`). -/
inductive LoadVal where
  | all
  | multi
  | allIfAuthed
  | noneL
  | bTrue
  | bFalse
deriving DecidableEq, Repr

/-- The request options `findAll` reads. -/
structure ReqOpt where
  url : Option String := none
  force : Bool := false
  load : Option LoadVal := none
  filter : List (String × String) := []
  limit : Option Int := none
  sortBy : Option String := none
  sortOrder : Option String := none
  watch : Option Bool := none
  watchNamespace : Option String := none
  forceWatch : Bool := false
deriving DecidableEq, Repr

/-- Modelled from the spec: one per-type store registered in `typeStores`
(§2 Context/Session bootstraps one store per type; the registration module
`mgmtStores` in `src/stores/steve.ts`'s export is not under `src/`).  Its
`list`/`map` are the Type Cache of §3, and its `findAll`/`loadAll`/`remove`
follow the logic of `src/composables/steve/type.ts` specialised to the one
type the store owns. -/
structure PerTypeStore where
  typeName : String := ""
  list : List Entry := []
  map : List (JKey × Entry) := []
  haveAll : Bool := false
  haveSelector : List (String × String) := []
  revision : Option Int := some 0
  generation : Int := 0
  nextIdent : Nat := 0
  requests : Nat := 0
  watchesIssued : List WatchDesc := []
deriving DecidableEq, Repr

/-- The management store state: the fields `ISteveTypeState` declares plus
the modelled transport.  `haveAllStore`, `genStore`, `listStore`,
`mapStore` are the *store-level* `haveAll`/`generation`/`list`/`map`
fields of `ISteveTypeState` (distinct from the per-type fields inside
`types`); the state initializer `SteveTypeState` leaves them at their
defaults.  The transport (`$fetch`, the socket) is external to the
repository and is modelled as: a queue `env` of prepared HTTP responses, a
`requests` log of performed request URLs, a `sent` log of frames the
socket accepted, and booleans `hasSocket`/`socketSendOk` for
`this.socket` presence and `socket.send` success. -/
structure MState where
  baseUrl : String := "/v1"
  storeType : Option String := none
  limitNamespace : Option String := none
  types : List (String × TypeCache) := []
  typeStores : List (String × PerTypeStore) := []
  schemas : List (String × Entry) := []
  queue : List QueueAction := []
  pendingFrames : List OutMsg := []
  started : List WatchDesc := []
  inError : List (String × String) := []
  haveAllStore : Bool := false
  genStore : Int := 0
  listStore : List Entry := []
  mapStore : List (String × Entry) := []
  nextIdent : Nat := 0
  env : List ICollection := []
  requests : List String := []
  hasSocket : Bool := true
  socketSendOk : Bool := true
  sent : List OutMsg := []
  resyncs : List InMsg := []
  retryTimers : List WatchDesc := []
  polls : List JKey := []
  pollTransitioningTypes : List String := []
deriving DecidableEq, Repr

/-- Modelled from the spec: `watchable(type)` (§4.3 — "if the type is
watchable, issues a watch"; `@/config/schemas` is not under `src/`).  A
defined type is watchable; `undefined` (the store-level `this.type`, which
`SteveTypeState` never sets) is not. -/
def watchable : Option String → Bool
  | none => false
  | some _ => true

/-- Modelled from the spec: `pollTransitioning(type)` (§4.3 — the
transitioning-poller is a collaborator concern; `@/config/schemas` is not
under `src/`).  Membership in a configured type list; `undefined` is not
polled. -/
def pollTransitioningT (s : MState) : Option String → Bool
  | none => false
  | some t => t ∈ s.pollTransitioningTypes

/-! ## Management store: getters -/

/-- `state.types[type]`. -/
def lookupType (s : MState) (t : String) : Option TypeCache :=
  (s.types.find? (fun p => p.1 = t)).map (·.2)

/-- Replace (or add) the bucket for `t`. -/
def setType (s : MState) (t : String) (c : TypeCache) : MState :=
  { s with types :=
      match s.types.find? (fun p => p.1 = t) with
      | some _ => s.types.map (fun p => if p.1 = t then (t, c) else p)
      | none => s.types ++ [(t, c)] }

/-- `typeRegistered` getter. -/
def typeRegistered (s : MState) (t : String) : Bool :=
  (lookupType s (normalizeType t)).isSome

/-- `registerType` action: idempotently creates the `ITypes` bucket. -/
def registerTypeM (s : MState) (t : String) : MState :=
  match lookupType s t with
  | some _ => s
  | none => { s with types := s.types ++ [(t, {})] }

/-- The bucket for `t`, after `registerType` guaranteed it exists. -/
def cacheOf (s : MState) (t : String) : TypeCache :=
  (lookupType s t).getD {}

/-- `byId` getter: `state.types[normalizeType(type)].map.get(id)`; the
`id` argument is `undefined` when `byId` is called with one argument (as
`remove` does). -/
def byIdM (s : MState) (t : String) (id : JKey) : Option Entry :=
  match lookupType s (normalizeType t) with
  | some entry => mget entry.map id
  | none => none

/-- The `list` of the bucket for `t` (`[]` when unregistered), the view
`all(type)` returns once the type is registered. -/
def allListM (s : MState) (t : String) : List Entry :=
  (cacheOf s (normalizeType t)).list

/-- `canWatch` getter: `!state.inError[keyForSubscribe(obj)]` (an empty
string stored as a reason is falsy, like JS). -/
def canWatchM (s : MState) (w : WatchDesc) : Bool :=
  ¬ jsTruthyStr (rget s.inError (keyForSubscribe w))

/-- `watchStarted` getter. -/
def watchStartedM (s : MState) (w : WatchDesc) : Bool :=
  (s.started.find? (fun entry => watchesAreEquivalent w entry)).isSome

/-- `existingWatchFor` getter. -/
def existingWatchForM (s : MState) (w : WatchDesc) : Option WatchDesc :=
  s.started.find? (fun entry => watchesAreEquivalent w entry)

/-- `storeFor` getter: `state.typeStores[normalizeType(type)]`. -/
def storeForM (s : MState) (t : String) : Option PerTypeStore :=
  (s.typeStores.find? (fun p => p.1 = normalizeType t)).map (·.2)

/-- Replace the registered per-type store for `t` (already normalized). -/
def setTypeStore (s : MState) (t : String) (ts : PerTypeStore) : MState :=
  { s with typeStores := s.typeStores.map (fun p => if p.1 = t then (t, ts) else p) }

/-- `schemaName` getter: shortest schema id equal to the type or ending in
`.{type}` (given the schema cache, which `schemaFor` has already checked). -/
def schemaNameM (sc : TypeCache) (t : String) : String :=
  let want := normalizeType t
  let entries :=
    ((sc.list.filter (fun x =>
        let thisOne := normalizeType (x.data.id.getD "")
        thisOne = want ∨ jsEndsWith thisOne ("." ++ want))).map
      (fun x => x.data.id.getD ""))
  let sorted := jsSortStable (fun a b => Int.ofNat a.length - Int.ofNat b.length) entries
  match sorted.head? with
  | some e => e
  | none => want

/-- Plain schema lookup against the schema type-cache; `Except.error` is
the `throw new Error("Schemas aren't loaded yet")` path. -/
def schemaFor0 (s : MState) (want : String) : Except String (Option Entry) :=
  match lookupType s SCHEMA with
  | none => .error "Schemas aren't loaded yet"
  | some sc => .ok (mget sc.map (some want))

/-- `schemaFor` getter (with its fuzzy fallback through `schemaName`). -/
def schemaForE (s : MState) (t : String) (fuzzy : Bool := false) :
    Except String (Option Entry) :=
  match schemaFor0 s (normalizeType t) with
  | .error e => .error e
  | .ok (some out) => .ok (some out)
  | .ok none =>
      if fuzzy then
        match lookupType s SCHEMA with
        | none => .ok none
        | some sc =>
            let close := schemaNameM sc (normalizeType t)
            if close ≠ "" then schemaFor0 s (normalizeType close) else .ok none
      else .ok none

/-- `nextResourceVersion` getter.  `Number.parseInt` of a missing or
non-numeric `resourceVersion` is NaN (`none`), NaN is falsy at the
`if (!revision)` test, and `Math.max` absorbs NaN across the cache scan. -/
def nextRV (s : MState) (t : String) (id : JKey) : Option Int :=
  let fromId : Option Int :=
    match id with
    | some i =>
        if i = "" then some 0
        else
          match byIdM s t (some i) with
          | some existing =>
              jsParseInt (((existing.data.metadata.map (·.resourceVersion)).join).getD "")
          | none => some 0
    | none => some 0
  let rev : Option Int :=
    if fromId ≠ some 0 ∧ fromId ≠ none then fromId
    else
      match lookupType s t with
      | none => none
      | some cache =>
          cache.list.foldl
            (fun acc obj =>
              match obj.data.metadata with
              | none => acc
              | some md => jsMaxNaN acc (jsParseInt (md.resourceVersion.getD "")))
            (some cache.revision)
  match rev with
  | some k => if k > 0 then some k else none
  | none => none

/-! ## Management store: actions -/

/-- Modelled from the spec: `decorate` (§4.4; `@/composables/steve/decorate`
is not under `src/`) — wraps a raw payload into a fresh identity-stable
proxy; the store's allocator supplies the identity tag. -/
def decorateM (s : MState) (d : IResource) : Entry × MState :=
  ({ ident := s.nextIdent, data := d }, { s with nextIdent := s.nextIdent + 1 })

/-- Decorate a whole payload array in order (`data.map((x) => decorate(x, this))`). -/
def decorateAll (s : MState) (ds : List IResource) : List Entry × MState :=
  match ds with
  | [] => ([], s)
  | d :: rest =>
      let (e, s1) := decorateM s d
      let (es, s2) := decorateAll s1 rest
      (e :: es, s2)

/-- `load(data, existing)` action.  Returns the updated state and the
result of the final `this.byId(type, id)` (`none` on the missing-id
early return). -/
def loadM (s : MState) (data : IResource) (existing : Option IResource) :
    MState × Option Entry :=
  let t0 := normalizeType data.typ
  let s := if ¬ typeRegistered s t0 then registerTypeM s t0 else s
  let (t, s) :=
    match data.baseType with
    | some b =>
        if b ≠ data.typ then
          let tb := normalizeType b
          (tb, if ¬ typeRegistered s tb then registerTypeM s tb else s)
        else (t0, s)
    | none => (t0, s)
  let idv := jsOrStr data.id (existing.bind (·.id))
  if ¬ jsTruthyStr idv then (s, none)
  else
    let id := idv.getD ""
    let s := { s with genStore := s.genStore + 1 }
    let s := registerTypeM s t
    let cache := cacheOf s t
    let (entry, s) : Entry × MState :=
      match mget cache.map (some id) with
      | some e =>
          let e' := e.update data
          let cache' := { cache with
            list := cache.list.map (fun x => if x.ident = e.ident then e' else x),
            map := mset cache.map (some id) e' }
          (e', setType s t cache')
      | none =>
          let (e, s1) := decorateM s data
          let cache' := { cache with
            list := cache.list ++ [e],
            map := mset cache.map (some id) e }
          (e, setType s1 t cache')
    let s :=
      if pollTransitioningT s s.storeType &&
          ((entry.data.metadata.map
            (fun md => md.stateTransitioning || md.stateError)).getD false) then
        { s with polls := s.polls ++ [some id] }
      else s
    (s, byIdM s t (some id))

/-- `loadMulti(data)` action: a `load` per entry, results discarded. -/
def loadMultiM (s : MState) (ds : List IResource) : MState :=
  ds.foldl (fun s d => (loadM s d none).1) s

/-- `loadAll(type, data)` action: clear the bucket's `list` and `map`, bump
its `generation`, decorate all payloads, append them, key the map by
`data[i]["id"]`, and mark `haveAll`. -/
def loadAllM (s : MState) (t : String) (ds : List IResource) : MState :=
  let s := registerTypeM s t
  let cache := cacheOf s t
  let (proxies, s) := decorateAll s ds
  let m := (ds.zip proxies).foldl (fun m p => mset m p.1.id p.2) []
  setType s t { cache with
    list := proxies,
    map := m,
    generation := cache.generation + 1,
    haveAll := true }

/-- `remove(objOrId)` action on the store-level `list`/`map` fields.  A
string argument goes through `this.byId(objOrId)` — `byId` receives the id
in its `type` parameter and `undefined` for `id`. -/
def removeM (s : MState) (arg : Entry ⊕ String) : MState × Bool :=
  let obj : Option Entry :=
    match arg with
    | .inr str => byIdM s str none
    | .inl o => some o
  match obj with
  | some o =>
      ({ s with
          genStore := s.genStore + 1,
          listStore := removeFirst s.listStore o,
          mapStore := edel s.mapStore (jsTemplate o.data.id) }, true)
  | none => (s, false)

/-! ## Management store: URL computation and transport -/

/-- Modelled from the spec: `urlOptions(url, opt)`
(`@/composables/steve/urloptions` is not under `src/`) — applies
filter/sort/pagination query parameters (§4.3); no parameter set leaves
the URL unchanged. -/
def urlOptions (url : String) (opt : ReqOpt) : String :=
  let parts :=
    (opt.filter.map (fun p => p.1 ++ "=" ++ p.2)) ++
      (match opt.limit with | some n => ["limit=" ++ toString n] | none => []) ++
      (match opt.sortBy with | some f => ["sort=" ++ f] | none => []) ++
      (match opt.sortOrder with | some o => ["order=" ++ o] | none => [])
  match parts with
  | [] => url
  | _ => url ++ "?" ++ String.intercalate "&" parts

/-- `urlFor(type, id?, opt)` getter. -/
def urlForE (s : MState) (t : String) (id : Option String) (opt : ReqOpt) :
    Except String String :=
  let t := normalizeType t
  let fromSchema : Except String String :=
    match opt.url with
    | some u => .ok u
    | none =>
        if t = SCHEMA then .ok SCHEMA
        else
          match schemaForE s t with
          | .error e => .error e
          | .ok none => .error ("Unknown schema for type: " ++ t)
          | .ok (some schema) =>
              match schema.data.collectionUrl with
              | none => .error ("You don't have permission to list this type: " ++ t)
              | some u =>
                  .ok (match id with
                    | some i => u ++ "/" ++ i
                    | none => u)
  match fromSchema with
  | .error e => .error e
  | .ok url =>
      let url :=
        if ¬ jsStartsWith url "/" ∧ ¬ jsStartsWith url "http" then
          dropOneTrailSlash s.baseUrl ++ "/" ++ url
        else url
      .ok (urlOptions url opt)

/-- The parent of `baseUrl` at its last `/` (`baseOf(baseUrl, "/")` —
Modelled from the spec: plain URL-string arithmetic from a util module not
under `src/`). -/
def baseOfSlash (s : String) : String :=
  match (s.data.reverse.dropWhile (· ≠ '/')).reverse with
  | [] => s
  | l => ⟨l.dropLast⟩

/-- The `while (url.startsWith("../"))` loop of `request`, with the string
length as fuel. -/
def dropDotDots : Nat → String → String → String × String
  | 0, b, u => (b, u)
  | n + 1, b, u =>
      if jsStartsWith u "../" then dropDotDots n (baseOfSlash b) (jsDropChars u 3)
      else (b, u)

/-- The URL surgery `request` performs before fetching (base-qualifying
relative URLs, `../` resolution, forcing https for localhost, stripping
trailing slashes). -/
def requestUrl (base url : String) : String :=
  let u :=
    if ¬ jsStartsWith url "/" ∧ ¬ jsStartsWith url "http" then
      let (b, u') := dropDotDots url.length (dropOneTrailSlash base) url
      b ++ "/" ++ u'
    else url
  let u :=
    if jsStartsWith u "http://localhost" then "https" ++ jsDropChars u 4
    else u
  stripTrailSlashes u

/-- `request(opt)` for collection GETs: performs the URL surgery, then the
external `$fetch` is modelled by consuming the next prepared response from
`env` and logging the URL in `requests`.  An exhausted `env` is a
transport failure. -/
def requestE (s : MState) (url : String) : Except String (ICollection × MState) :=
  let u := requestUrl s.baseUrl url
  match s.env with
  | [] => .error "TransportFailure"
  | r :: rest => .ok (r, { s with env := rest, requests := s.requests ++ [u] })

/-! ## Management store: `findAll` -/

/-- What `findAll` resolves with: `allGetterFn` is the early cached-branch
`return this.all` (the getter *function*, returned uncalled); `items` is a
resolved array of decorated resources. -/
inductive FindAllRes where
  | allGetterFn
  | items (l : List Entry)
deriving DecidableEq, Repr

/-- The effective `load` mode: `opt.load === undefined ? "all" : opt.load`,
then `"none"` when `opt.load === false || opt.load === "none"`. -/
def effLoad : Option LoadVal → LoadVal
  | none => .all
  | some .bFalse => .noneL
  | some .noneL => .noneL
  | some v => v

/-- `send(obj)`: try `socket.send`; on a missing socket or a failed send
the frame goes to `pendingFrames`. -/
def sendM (s : MState) (m : OutMsg) : MState :=
  if s.hasSocket && s.socketSendOk then { s with sent := s.sent ++ [m] }
  else { s with pendingFrames := s.pendingFrames ++ [m] }

/-- `watch(params)` action. -/
def watchM (s : MState) (params : WatchDesc) : MState :=
  let ns := if jsTruthyStr s.limitNamespace then s.limitNamespace else params.ns
  let t := normalizeType (params.typ.getD "")
  if ¬ params.stop ∧ ¬ params.force ∧ ¬ canWatchM s params then s
  else if ¬ params.stop ∧
      watchStartedM s
        { typ := some t, id := params.id, selector := params.selector, ns := ns } then s
  else
    let rev : Option JsRev :=
      match params.revision with
      | some r => some (.str r)
      | none => (nextRV s t params.id).map .num
    let msg : OutMsg := {
      resourceType := t
      resourceVersion := if jsTruthyRev rev then (rev.map jsRevToString) else none
      ns := if jsTruthyStr ns then ns else none
      stop := params.stop
      id := if jsTruthyStr params.id then params.id else none
      selector := if jsTruthyStr params.selector then params.selector else none }
    sendM s msg

/-- `findAll(type, opt)` action.  The early branch returns the uncalled
`this.all` getter when the *store-level* `haveAll` is set and the call is
not forced; otherwise one request is made, the response is loaded per the
effective `load` mode, a whole-type watch is attempted for `this.type`
(the store-level `type`, which `SteveTypeState` never sets), and
`this.all(type)` — the bucket list — is returned. -/
def findAllM (s : MState) (t : String) (opt : ReqOpt) :
    Except String (FindAllRes × MState) :=
  if opt.force ≠ true ∧ s.haveAllStore then .ok (.allGetterFn, s)
  else
    let load := effLoad opt.load
    match urlForE s t none opt with
    | .error e => .error e
    | .ok url =>
        match requestE s url with
        | .error e => .error e
        | .ok (res, s1) =>
            if load = .noneL then
              let (es, s2) := decorateAll s1 res.data
              .ok (.items es, s2)
            else
              let s2 :=
                if load = .multi then loadMultiM s1 res.data
                else loadAllM s1 t res.data
              let s3 :=
                if opt.watch ≠ some false ∧ watchable s2.storeType then
                  watchM s2
                    { typ := s2.storeType, revision := res.revision,
                      ns := opt.watchNamespace }
                else s2
              .ok (.items (allListM s3 t), s3)

/-! ## Watch bookkeeping and websocket handlers -/

/-- `addObject(ary, obj)` — Modelled from the spec (util module
`@/utils/array` is not under `src/`): append the object when not already
present. -/
def addObjectW (l : List WatchDesc) (w : WatchDesc) : List WatchDesc :=
  if w ∈ l then l else l ++ [w]

/-- `setWatchStarted(obj)` action: add to `started` when no equivalent
watch exists, and clear the descriptor's `inError` entry. -/
def setWatchStartedM (s : MState) (w : WatchDesc) : MState :=
  let s :=
    match existingWatchForM s w with
    | some _ => s
    | none => { s with started := addObjectW s.started w }
  { s with inError := rdel s.inError (keyForSubscribe w) }

/-- `setWatchStopped(obj)` action: remove the first equivalent watch from
`started` (warn-and-ignore when absent). -/
def setWatchStoppedM (s : MState) (w : WatchDesc) : MState :=
  match existingWatchForM s w with
  | some existing => { s with started := removeFirst s.started existing }
  | none => s

/-- `setInError(msg)` action. -/
def setInErrorM (s : MState) (w : WatchDesc) (reason : String) : MState :=
  { s with inError := rset s.inError (keyForSubscribe w) reason }

/-- `clearInError(msg)` action. -/
def clearInErrorM (s : MState) (w : WatchDesc) : MState :=
  { s with inError := rdel s.inError (keyForSubscribe w) }

/-- `reconnectWatches()` action: for each snapshot entry of `started`
whose type has a schema, stop it, delete its stored `revision`, and
re-issue `watch(entry)`.  The schema lookup throws when the schema cache
is absent (`Except.error`). -/
def reconnectGo (ents : List WatchDesc) (s : MState) : Except String MState :=
  match ents with
  | [] => .ok s
  | e :: rest =>
      match schemaForE s (e.typ.getD "") with
      | .error msg => .error msg
      | .ok none => reconnectGo rest s
      | .ok (some _) =>
          let s1 := setWatchStoppedM s e
          let e' := { e with revision := none }
          let s2 := watchM s1 e'
          reconnectGo rest s2

/-- `reconnectWatches()` over the `started.slice()` snapshot. -/
def reconnectWatchesM (s : MState) : Except String MState :=
  reconnectGo s.started s

/-- `ws.resource.error` handler.  `msg.data?.error?.toLowerCase()` is
`undefined` when the message carries no error text, and the unguarded
`err.includes(...)` then throws — modelled as `none`. -/
def wsResourceErrorM (s : MState) (msg : InMsg) : Option MState :=
  match msg.data.bind (·.error) with
  | none => none
  | some e =>
      let err := jsToLower e
      if jsIncludes err "watch not allowed" then
        some (setInErrorM s { typ := msg.resourceType } NO_WATCH)
      else if jsIncludes err "failed to find schema" then
        some (setInErrorM s { typ := msg.resourceType } NO_SCHEMA)
      else if jsIncludes err "too old" || jsIncludes err "status code 410" then
        some { s with resyncs := s.resyncs ++ [msg] }
      else some s

/-! ## Change queue and message dispatch -/

/-- Entry-valued record assignment. -/
def esetE (m : List (String × Entry)) (k : String) (v : Entry) :
    List (String × Entry) :=
  match m with
  | [] => [(k, v)]
  | (k', v') :: rest => if k' = k then (k, v) :: rest else (k', v') :: esetE rest k v

/-- Modelled from the spec: the per-type store's `reset()` — clears the
Type Cache bookkeeping (the shape follows `reset` in
`src/composables/steve/type.ts`). -/
def resetP (ts : PerTypeStore) : PerTypeStore :=
  { ts with
      list := [], map := [], haveAll := false, haveSelector := [],
      revision := some 0, generation := ts.generation + 1 }

/-- `forgetType(type, disconnect)` action. -/
def forgetTypeM (s : MState) (t : String) (disconnect : Bool := true) : MState :=
  let t := normalizeType t
  let s :=
    match storeForM s t with
    | some ts => setTypeStore s t (resetP ts)
    | none => s
  if disconnect then
    { s with schemas := edel s.schemas t,
             typeStores := s.typeStores.filter (fun p => p.1 ≠ t) }
  else s

/-- `queueChange(msg, load, event)` action: maintain the schema record for
`schema` events; otherwise bump the per-type store's revision watermark
(`Math.max` with a NaN-prone `parseInt`) and append a `load` or `remove`
action — or do nothing when the type has no registered sub-store. -/
def queueChangeM (s : MState) (msg : InMsg) (load : Bool) (event : String) :
    MState :=
  match msg.data with
  | none => s
  | some data =>
      let t := normalizeType data.typ
      if t = "schema" then
        let normalizedId := normalizeType (data.id.getD "")
        if load then
          match eget s.schemas t with
          | some existing =>
              let schemas' :=
                s.schemas.map (fun p => if p.1 = t then (t, existing.update data) else p)
              { s with schemas := schemas' }
          | none =>
              let (neu, s1) := decorateM s data
              { s1 with schemas := esetE s1.schemas normalizedId neu }
        else
          forgetTypeM { s with schemas := edel s.schemas normalizedId } normalizedId
      else
        match storeForM s t with
        | none => s
        | some ts =>
            let ts' := { ts with
              revision := jsMaxNaN ts.revision (jsParseInt (msg.revision.getD "")) }
            let s := setTypeStore s t ts'
            if load then
              { s with queue := s.queue ++
                  [{ action := .load, typ := t, body := some data, event := event }] }
            else
              { s with queue := s.queue ++
                  [{ action := .remove, typ := data.typ, id := data.id }] }

/-- The fixed set of message names with a `ws.*` handler. -/
def handlerNames : List String :=
  ["ping", "resource.start", "resource.error", "resource.stop",
   "resource.create", "resource.change", "resource.remove"]

/-- How the `EVENT_MESSAGE` body disposed of a message: dispatched to a
handler; renamed to `resource.change` and then fallen through (the
non-dotted compatibility branch assigns `msg.name` and does nothing
further); or logged as unknown and dropped. -/
inductive DispatchResult where
  | handled
  | renamedDrop
  | unknownDrop
deriving DecidableEq, Repr

/-- Run the `ws.<name>` handler for a known name (`none` models a handler
that throws: `resource.error` without error text, or a schema lookup
throwing before schemas are loaded). -/
def runHandlerM (s : MState) (name : String) (msg : InMsg) : Option MState :=
  if name = "ping" then some s
  else if name = "resource.start" then
    some (setWatchStartedM s
      { typ := msg.resourceType, ns := msg.ns, id := msg.id, selector := msg.selector })
  else if name = "resource.error" then wsResourceErrorM s msg
  else if name = "resource.stop" then
    let obj : WatchDesc :=
      { typ := msg.resourceType, id := msg.id, ns := msg.ns, selector := msg.selector }
    match schemaForE s (msg.resourceType.getD "") with
    | .error _ => none
    | .ok sc =>
        if sc.isSome ∧ watchStartedM s obj then
          let s1 := setWatchStoppedM s obj
          some { s1 with retryTimers := s1.retryTimers ++ [obj] }
        else some s
  else if name = "resource.create" then some (queueChangeM s msg true "create")
  else if name = "resource.change" then some (queueChangeM s msg true "change")
  else if name = "resource.remove" then some (queueChangeM s msg false "")
  else none

/-- The `EVENT_MESSAGE` callback body of `subscribe` applied to a parsed
message: dispatch by name when a `ws.<name>` handler exists; otherwise a
name without a dot is renamed to `resource.change` — and the renamed
message is then dropped, no handler is invoked; otherwise log and drop. -/
def dispatchMessageM (s : MState) (msg : InMsg) : Option (MState × DispatchResult) :=
  if jsTruthyStr msg.name ∧ (msg.name.getD "") ∈ handlerNames then
    (runHandlerM s (msg.name.getD "") msg).map (fun s' => (s', .handled))
  else if ¬ jsIncludes (jsTemplate msg.name) "." then
    some (s, .renamedDrop)
  else
    some (s, .unknownDrop)

/-! ## Per-type stores (spec-modelled) and `resyncWatch` -/

/-- Modelled from the spec: the per-type store's decorator allocation
(§4.4), with the store's own identity allocator. -/
def decorateP (ts : PerTypeStore) (d : IResource) : Entry × PerTypeStore :=
  ({ ident := ts.nextIdent, data := d }, { ts with nextIdent := ts.nextIdent + 1 })

/-- Decorate a payload array in order on a per-type store. -/
def decorateAllP (ts : PerTypeStore) (ds : List IResource) :
    List Entry × PerTypeStore :=
  match ds with
  | [] => ([], ts)
  | d :: rest =>
      let (e, ts1) := decorateP ts d
      let (es, ts2) := decorateAllP ts1 rest
      (e :: es, ts2)

/-- Modelled from the spec: the per-type store's `byId(id)` — the Type
Cache map lookup (§3). -/
def byIdP (ts : PerTypeStore) (id : String) : Option Entry :=
  mget ts.map (some id)

/-- Modelled from the spec: the per-type store's `loadAll(data)`,
following `loadAll` of `src/composables/steve/type.ts` — clear `list` and
`map`, bump `generation`, decorate all payloads, append, key the map by
id, mark `haveAll`. -/
def loadAllP (ts : PerTypeStore) (ds : List IResource) : PerTypeStore :=
  let (proxies, ts) := decorateAllP ts ds
  let m := (ds.zip proxies).foldl (fun m p => mset m p.1.id p.2) []
  { ts with
      list := proxies, map := m,
      generation := ts.generation + 1, haveAll := true }

/-- Modelled from the spec: the per-type store's upsert `load(data)`,
following `load` of `src/composables/steve/type.ts` restricted to the one
owned type. -/
def loadP (ts : PerTypeStore) (data : IResource) : PerTypeStore :=
  match data.id with
  | none => ts
  | some id =>
      let ts := { ts with generation := ts.generation + 1 }
      match mget ts.map (some id) with
      | some e =>
          let e' := e.update data
          { ts with
              list := ts.list.map (fun x => if x.ident = e.ident then e' else x),
              map := mset ts.map (some id) e' }
      | none =>
          let (e, ts1) := decorateP ts data
          { ts1 with
              list := ts1.list ++ [e],
              map := mset ts1.map (some id) e }

/-- Modelled from the spec: the per-type store's `findAll(opt)` (§4.3) —
serve from cache when `haveAll` and not forced; otherwise one fetch
(`fresh` is the response's `data`), a `loadAll`, a whole-type watch, and
the cache list is returned. -/
def findAllP (ts : PerTypeStore) (force : Bool) (fresh : List IResource) :
    PerTypeStore × List Entry :=
  if ¬ force ∧ ts.haveAll then (ts, ts.list)
  else
    let ts := { ts with requests := ts.requests + 1 }
    let ts := loadAllP ts fresh
    let ts := { ts with watchesIssued := ts.watchesIssued ++ [{ typ := some ts.typeName }] }
    (ts, ts.list)

/-- Modelled from the spec: the per-type store's `find(id, opt)` under
`force` — one fetch of the single resource, upserted via `load`. -/
def findP (ts : PerTypeStore) (fresh : Option IResource) : PerTypeStore :=
  let ts := { ts with requests := ts.requests + 1 }
  match fresh with
  | some r => loadP ts r
  | none => ts

/-- Modelled from the spec: label-selector matching (§4.3), abstracted to
membership of the selector string in the resource's labels. -/
def matchingP (ts : PerTypeStore) (sel : String) : List Entry :=
  ts.list.filter (fun e => sel ∈ e.data.labels)

/-- Modelled from the spec: the per-type store's `findMatching(selector)`
under `force` — fetch, `loadMulti`, record `haveSelector`, return the
matching view. -/
def findMatchingP (ts : PerTypeStore) (sel : String) (fresh : List IResource) :
    PerTypeStore × List Entry :=
  let ts := { ts with requests := ts.requests + 1 }
  let ts := fresh.foldl loadP ts
  let ts := { ts with haveSelector := rset ts.haveSelector sel "true" }
  (ts, matchingP ts sel)

/-- `inNamespace(namespace)` view: resources whose `metadata.namespace`
equals the namespace. -/
def inNamespaceP (ts : PerTypeStore) (ns : String) : List Entry :=
  ts.list.filter (fun e => (e.data.metadata.bind (·.ns)) = some ns)

/-- Modelled from the spec: the per-type store's `remove(objOrId)`,
following `remove` of `src/composables/steve/type.ts` with the per-type
`list`/`map` as the Type Cache. -/
def removeP (ts : PerTypeStore) (arg : Entry ⊕ String) : PerTypeStore × Bool :=
  let obj : Option Entry :=
    match arg with
    | .inr str => byIdP ts str
    | .inl o => some o
  match obj with
  | some o =>
      ({ ts with
          generation := ts.generation + 1,
          list := removeFirst ts.list o,
          map := mdel ts.map o.data.id }, true)
  | none => (ts, false)

/-- `resyncWatch(params)` action.  `fresh` is the data of the forced
re-fetch the resync performs (a single resource for an id-scoped watch).
Resolve the per-type store for `params.resourceType` (no-op when none is
registered); re-fetch the scope with `force`; then remove every previously
cached resource of the captured `have` snapshot whose id is missing from
the `wantMap` of the fresh set. -/
def resyncWatchM (s : MState) (params : WatchDesc) (fresh : List IResource) :
    MState :=
  let rt := params.resourceType.getD ""
  match storeForM s rt with
  | none => s
  | some ts =>
      let key := normalizeType rt
      if jsTruthyStr params.id then
        let ts1 := findP ts fresh.head?
        clearInErrorM (setTypeStore s key ts1) params
      else
        let haveWantTs : List Entry × PerTypeStore × List Entry :=
          if jsTruthyStr params.selector then
            let hv := matchingP ts (params.selector.getD "")
            let (ts1, want) := findMatchingP ts (params.selector.getD "") fresh
            (hv, ts1, want)
          else
            let hv :=
              if jsTruthyStr params.ns then inNamespaceP ts (params.ns.getD "")
              else ts.list
            let (ts1, want) := findAllP ts true fresh
            (hv, ts1, want)
        let hv := haveWantTs.1
        let ts1 := haveWantTs.2.1
        let want := haveWantTs.2.2
        let wantKeys := want.map (fun e => jsTemplate e.data.id)
        let ts2 := hv.foldl
          (fun acc obj =>
            if jsTemplate obj.data.id ∉ wantKeys then (removeP acc (.inl obj)).1
            else acc)
          ts1
        setTypeStore s key ts2

/-! ## `apiList` depagination (`src/server/utils/api.ts`) -/

/-- One parsed `apiFetch` response as `apiList` reads it: the `object`
kind, the `has_more` flag, the `last_id` cursor, and the `data` page. -/
structure ApiPage (α : Type) where
  object : String := ""
  has_more : Bool := false
  last_id : Option String := none
  data : List α := []
deriving DecidableEq, Repr

/-- The `while (res.object === "list" && res.has_more)` loop of `apiList`,
with fuel bounding the number of follow-up fetches; `env` models
`apiFetch` (the external HTTP service), `none` a rejected fetch. -/
def apiListGo (env : String → Option (ApiPage α)) (dest : String) :
    Nat → ApiPage α → List α → Option (List α)
  | fuel, res, acc =>
      if res.object = "list" ∧ res.has_more then
        match fuel with
        | 0 => none
        | fuel + 1 =>
            match env (dest ++ "?after=" ++ jsTemplate res.last_id) with
            | none => none
            | some r2 => apiListGo env dest fuel r2 (acc ++ r2.data)
      else some acc

/-- `apiList(to)`: fetch the first page, then follow `after=<last_id>`
cursors while `object == "list"` and `has_more`, accumulating every
page's `data` in order. -/
def apiListM (env : String → Option (ApiPage α)) (dest : String) (fuel : Nat) :
    Option (List α) :=
  match env dest with
  | none => none
  | some res => apiListGo env dest fuel res res.data

/-- The environment serves the page chain `p :: ps` starting at `dest`: each
page but the last has `has_more = true` and the fetch of
`dest?after=<last_id>` returns the next page. -/
def chainServed (env : String → Option (ApiPage α)) (dest : String) :
    ApiPage α → List (ApiPage α) → Prop
  | _, [] => True
  | p, q :: rest =>
      p.has_more = true ∧
        env (dest ++ "?after=" ++ jsTemplate p.last_id) = some q ∧
        chainServed env dest q rest

/-! ## The modelfiles route handler (`src/server/routes/v1/modelfiles/index.ts`) -/

/-- The `status` block of a modelfile as the route reads it. -/
structure MFStatus where
  model : String := ""
  modelID : String := ""
  byteSize : String := ""
deriving DecidableEq, Repr

/-- One modelfile record: top-level properties `id` and `status`. -/
structure Modelfile where
  id : String := ""
  status : MFStatus := {}
deriving DecidableEq, Repr

/-- JS property access `mf[key]` for the route's `sort` keys: `"id"` is a
top-level property; a dotted string such as `"status.model"` names no
top-level property, so the access yields `undefined`. -/
def mfProp (mf : Modelfile) (key : String) : Option String :=
  if key = "id" then some mf.id else none

/-- Lexicographic comparison of character lists by code point (the JS
string `<`), kept kernel-computable. -/
def jsStrLtRaw : List Char → List Char → Bool
  | [], [] => false
  | [], _ :: _ => true
  | _ :: _, [] => false
  | a :: as, b :: bs =>
      if a.toNat < b.toNat then true
      else if b.toNat < a.toNat then false
      else jsStrLtRaw as bs

/-- JS `<` between two possibly-`undefined` strings: any comparison
against `undefined` is false. -/
def jsLtStr : Option String → Option String → Bool
  | some a, some b => jsStrLtRaw a.data b.data
  | _, _ => false

/-- The route's sort comparator: `0` without a (truthy) `sort`; otherwise
compare `a[sort]` and `b[sort]` with JS `<`/`>` and apply `order`. -/
def mfCmp (sort order : Option String) (a b : Modelfile) : Int :=
  if ¬ jsTruthyStr sort then 0
  else
    let key := sort.getD ""
    let av := mfProp a key
    let bv := mfProp b key
    if jsLtStr av bv then (if order = some "asc" then -1 else 1)
    else if jsLtStr bv av then (if order = some "asc" then 1 else -1)
    else 0

/-- Case-insensitive containment, modelling
`x.search(new RegExp(q, "i")) !== -1` for pattern strings without regex
metacharacters (the only shapes the verified properties exercise). -/
def ciContains (hay q : String) : Bool :=
  jsIncludes (jsToLower hay) (jsToLower q)

/-- The `q` filter of the route: any of `id`, `status.model`,
`status.modelID`, `status.byteSize` matches case-insensitively. -/
def mfMatchesQ (q : String) (mf : Modelfile) : Bool :=
  ciContains mf.id q || ciContains mf.status.model q ||
    ciContains mf.status.modelID q || ciContains mf.status.byteSize q

/-- The modelfiles route handler applied to the fetched list: the four
filters in order, then `Array.prototype.sort` with the route's
comparator. -/
def modelfilesHandler (files : List Modelfile) (q : Option String)
    (ids models modelIds : List String) (sort order : Option String) :
    List Modelfile :=
  let l := files.filter (fun mf => if ¬ jsTruthyStr q then true else mfMatchesQ (q.getD "") mf)
  let l := l.filter (fun mf => if ids.isEmpty then true else mf.id ∈ ids)
  let l := l.filter (fun mf => if models.isEmpty then true else mf.status.model ∈ models)
  let l := l.filter (fun mf => if modelIds.isEmpty then true else mf.status.modelID ∈ modelIds)
  jsSortStable (mfCmp sort order) l

/-- The canonical type key `load` finally stores under: the normalized
`baseType` when present and distinct from `type`, else the normalized
`type`. -/
def loadTargetType (data : IResource) : String :=
  match data.baseType with
  | some b => if b ≠ data.typ then normalizeType b else normalizeType data.typ
  | none => normalizeType data.typ

/-- The `has_more` flag of the last page of the chain `p :: ps`. -/
def lastHasMore : ApiPage α → List (ApiPage α) → Bool
  | p, [] => p.has_more
  | _, q :: rest => lastHasMore q rest

/-- The `pod` schema as a decorated entry (its `links.collection` is
`/v1/pods`). -/
def podSchemaEntry : Entry :=
  { ident := 100,
    data := { typ := "schema", id := some "pod", collectionUrl := some "/v1/pods" } }

/-- A fresh pod resource carrying resourceVersion `2`. -/
def podP1 : IResource :=
  { typ := "pod", id := some "p1", metadata := some { resourceVersion := some "2" } }

/-- A store with the schema cache loaded (the `pod` schema present) and a
transport holding two prepared responses, each one pod; nothing fetched
yet. -/
def c1state : MState :=
  { types := [("schema",
      { list := [podSchemaEntry], map := [(some "pod", podSchemaEntry)] })],
    env := [{ data := [podP1], revision := some "2" },
            { data := [podP1], revision := some "2" }] }

/-- A store with a registered `pod` per-type sub-store and an empty change
queue. -/
def c8state : MState :=
  { typeStores := [("pod", { typeName := "pod" })] }

/-- A stored decorated resource used as a concrete `remove` fixture. -/
def c7entry : Entry :=
  { ident := 0, data := { typ := "pod", id := some "p1" } }

/-- A store holding `c7entry` in the store-level `list`/`map` and in the
`pod` type cache. -/
def c7state : MState :=
  { listStore := [c7entry],
    mapStore := [("p1", c7entry)],
    types := [("pod", { list := [c7entry], map := [(some "p1", c7entry)] })] }


/-- `reconnectWatches` reissues `watch(entry)` after deleting the stored
`revision`; `watch` then recomputes the revision via `nextResourceVersion`
and sends this frame (established by `watchM_reissue` below). -/
def reissueMsg (base : MState) (e : WatchDesc) : OutMsg :=
  { resourceType := normalizeType (e.typ.getD "")
    resourceVersion :=
      match nextRV base (normalizeType (e.typ.getD "")) e.id with
      | some n => some (toString n)
      | none => none
    ns := if jsTruthyStr e.ns then e.ns else none
    stop := false
    id := if jsTruthyStr e.id then e.id else none
    selector := if jsTruthyStr e.selector then e.selector else none }

/-- A stored pod entry whose metadata carries resourceVersion `5`. -/
def c4podEntry : Entry :=
  { ident := 1,
    data := { typ := "pod", id := some "p1",
              metadata := some { resourceVersion := some "5" } } }

/-- A store with the pod schema loaded, one cached pod at resourceVersion
`5`, and one started pod watch whose descriptor stored revision `100`. -/
def c4state : MState :=
  { types := [("schema",
      { list := [podSchemaEntry], map := [(some "pod", podSchemaEntry)] }),
      ("pod", { list := [c4podEntry], map := [(some "p1", c4podEntry)] })],
    started := [{ typ := some "pod", revision := some "100" }] }


/-! ## Helper lemmas -/

theorem char_toLower_idem (c : Char) : c.toLower.toLower = c.toLower := by
  unfold Char.toLower
  by_cases h : c.toNat ≥ 65 ∧ c.toNat ≤ 90
  · rw [if_pos h]
    have hvalid : (c.toNat + 32).isValidChar := by
      left
      omega
    have hv : (Char.ofNat (c.toNat + 32)).toNat = c.toNat + 32 := by
      unfold Char.ofNat
      rw [dif_pos hvalid]
      unfold Char.ofNatAux Char.toNat
      rfl
    rw [if_neg]
    rw [hv]
    omega
  · rw [if_neg h, if_neg h]

theorem jsToLower_idem (s : String) : jsToLower (jsToLower s) = jsToLower s := by
  unfold jsToLower
  simp [List.map_map, Function.comp_def, char_toLower_idem]

theorem normalizeType_idem (t : String) :
    normalizeType (normalizeType t) = normalizeType t := by
  unfold normalizeType
  exact jsToLower_idem t

theorem mget_mset_self (m : List (JKey × Entry)) (k : JKey) (v : Entry) :
    mget (mset m k v) k = some v := by
  induction m with
  | nil =>
      unfold mset mget
      rw [List.find?_cons_of_pos _ (by simp)]
      rfl
  | cons p rest ih =>
      obtain ⟨k', v'⟩ := p
      by_cases h : k' = k
      · unfold mset mget
        rw [if_pos h, List.find?_cons_of_pos _ (by simp)]
        rfl
      · unfold mset mget
        rw [if_neg h, List.find?_cons_of_neg _ (by simp [h])]
        exact ih

theorem length_mset_of_found (m : List (JKey × Entry)) (k : JKey) (v e : Entry)
    (h : mget m k = some e) : (mset m k v).length = m.length := by
  induction m with
  | nil =>
      unfold mget at h
      simp [List.find?] at h
  | cons p rest ih =>
      obtain ⟨k', v'⟩ := p
      by_cases hk : k' = k
      · unfold mset
        rw [if_pos hk]
        simp
      · unfold mget at h
        rw [List.find?_cons_of_neg _ (by simp [hk])] at h
        unfold mset
        rw [if_neg hk]
        simp only [List.length_cons]
        rw [ih h]

theorem find_map_setType (t : String) (c : TypeCache) (u : String)
    (l : List (String × TypeCache)) (hu : u ≠ t) :
    ((l.map (fun p => if p.1 = t then (t, c) else p)).find? (fun p => p.1 = u)) =
      l.find? (fun p => p.1 = u) := by
  induction l with
  | nil => rfl
  | cons q rest ih =>
      by_cases hq : q.1 = t
      · have hnu : ((t : String), c).1 ≠ u := fun hh => hu hh.symm
        have hnu2 : q.1 ≠ u := by rw [hq]; exact fun hh => hu hh.symm
        simp only [List.map_cons, if_pos hq]
        rw [List.find?_cons_of_neg _ (by simp [hnu]),
          List.find?_cons_of_neg _ (by simp [hnu2])]
        exact ih
      · simp only [List.map_cons, if_neg hq]
        by_cases hqu : q.1 = u
        · rw [List.find?_cons_of_pos _ (by simp [hqu]),
            List.find?_cons_of_pos _ (by simp [hqu])]
        · rw [List.find?_cons_of_neg _ (by simp [hqu]),
            List.find?_cons_of_neg _ (by simp [hqu])]
          exact ih

theorem find_map_setType_found (t : String) (c : TypeCache)
    (l : List (String × TypeCache)) (h : (l.find? (fun p => p.1 = t)).isSome) :
    ((l.map (fun p => if p.1 = t then (t, c) else p)).find? (fun p => p.1 = t)) =
      some (t, c) := by
  induction l with
  | nil => simp [List.find?] at h
  | cons q rest ih =>
      by_cases hq : q.1 = t
      · simp only [List.map_cons, if_pos hq]
        rw [List.find?_cons_of_pos _ (by simp)]
      · simp only [List.map_cons, if_neg hq]
        rw [List.find?_cons_of_neg _ (by simp [hq])]
        rw [List.find?_cons_of_neg _ (by simp [hq])] at h
        exact ih h

theorem cacheOf_registerTypeM (s : MState) (t u : String) :
    cacheOf (registerTypeM s t) u = cacheOf s u := by
  unfold registerTypeM
  cases h : lookupType s t with
  | some c => rfl
  | none =>
      unfold cacheOf lookupType
      rw [List.find?_append]
      cases h2 : s.types.find? (fun p => p.1 = u) with
      | some c => simp
      | none =>
          by_cases htu : t = u <;>
            simp [List.find?, htu]

theorem genStore_registerTypeM (s : MState) (t : String) :
    (registerTypeM s t).genStore = s.genStore := by
  unfold registerTypeM
  cases lookupType s t <;> rfl

theorem nextIdent_registerTypeM (s : MState) (t : String) :
    (registerTypeM s t).nextIdent = s.nextIdent := by
  unfold registerTypeM
  cases lookupType s t <;> rfl

theorem cacheOf_ite_reg (s : MState) (p : Prop) [Decidable p] (t u : String) :
    cacheOf (if p then registerTypeM s t else s) u = cacheOf s u := by
  by_cases h : p <;> simp [h, cacheOf_registerTypeM]

theorem genStore_ite_reg (s : MState) (p : Prop) [Decidable p] (t : String) :
    (if p then registerTypeM s t else s).genStore = s.genStore := by
  by_cases h : p <;> simp [h, genStore_registerTypeM]

theorem nextIdent_ite_reg (s : MState) (p : Prop) [Decidable p] (t : String) :
    (if p then registerTypeM s t else s).nextIdent = s.nextIdent := by
  by_cases h : p <;> simp [h, nextIdent_registerTypeM]

theorem genStore_setType (s : MState) (t : String) (c : TypeCache) :
    (setType s t c).genStore = s.genStore := by
  unfold setType
  cases s.types.find? (fun p => p.1 = t) <;> rfl

theorem nextIdent_setType (s : MState) (t : String) (c : TypeCache) :
    (setType s t c).nextIdent = s.nextIdent := by
  unfold setType
  cases s.types.find? (fun p => p.1 = t) <;> rfl

theorem cacheOf_setType_self (s : MState) (t : String) (c : TypeCache) :
    cacheOf (setType s t c) t = c := by
  unfold setType cacheOf lookupType
  cases h : s.types.find? (fun p => p.1 = t) with
  | some p =>
      simp only [h]
      rw [find_map_setType_found t c s.types (by simp [h])]
      rfl
  | none =>
      simp only [h]
      rw [List.find?_append, h]
      simp [List.find?]

theorem cacheOf_setType_ne (s : MState) (t : String) (c : TypeCache) (u : String)
    (hu : u ≠ t) : cacheOf (setType s t c) u = cacheOf s u := by
  unfold setType cacheOf lookupType
  cases h : s.types.find? (fun p => p.1 = t) with
  | some p =>
      simp only [h]
      rw [find_map_setType t c u s.types hu]
  | none =>
      simp only [h]
      rw [List.find?_append]
      have h1 : ([((t : String), c)].find? (fun p => p.1 = u)) = none := by
        rw [List.find?_cons_of_neg _ (by simp; exact fun hh => hu hh.symm)]
        rfl
      cases h2 : s.types.find? (fun p => p.1 = u) <;> simp [h1, h2]

theorem lookupType_setType_self (s : MState) (t : String) (c : TypeCache) :
    lookupType (setType s t c) t = some c := by
  unfold setType lookupType
  cases h : s.types.find? (fun p => p.1 = t) with
  | some p =>
      simp only [h]
      rw [find_map_setType_found t c s.types (by simp [h])]
      rfl
  | none =>
      simp only [h]
      rw [List.find?_append, h]
      simp [List.find?]

theorem cacheOf_genBump (s : MState) (n : Int) (u : String) :
    cacheOf { s with genStore := n } u = cacheOf s u := rfl

theorem genStore_genBump (s : MState) (n : Int) :
    ({ s with genStore := n } : MState).genStore = n := rfl

theorem nextIdent_genBump (s : MState) (n : Int) :
    ({ s with genStore := n } : MState).nextIdent = s.nextIdent := rfl

theorem cacheOf_identBump (s : MState) (n : Nat) (u : String) :
    cacheOf { s with nextIdent := n } u = cacheOf s u := rfl

theorem genStore_identBump (s : MState) (n : Nat) :
    ({ s with nextIdent := n } : MState).genStore = s.genStore := rfl

theorem nextIdent_identBump (s : MState) (n : Nat) :
    ({ s with nextIdent := n } : MState).nextIdent = n := rfl

theorem cacheOf_pollIf (s : MState) (p : Prop) [Decidable p] (ks : List JKey)
    (u : String) :
    cacheOf (if p then { s with polls := ks } else s) u = cacheOf s u := by
  by_cases h : p
  · simp [h]
    rfl
  · simp [h]

theorem genStore_pollIf (s : MState) (p : Prop) [Decidable p] (ks : List JKey) :
    (if p then { s with polls := ks } else s).genStore = s.genStore := by
  by_cases h : p <;> simp [h]

theorem nextIdent_pollIf (s : MState) (p : Prop) [Decidable p] (ks : List JKey) :
    (if p then { s with polls := ks } else s).nextIdent = s.nextIdent := by
  by_cases h : p <;> simp [h]

theorem lookupType_pollIf (s : MState) (p : Prop) [Decidable p] (ks : List JKey)
    (u : String) :
    lookupType (if p then { s with polls := ks } else s) u = lookupType s u := by
  by_cases h : p
  · simp [h]
    rfl
  · simp [h]

set_option maxHeartbeats 1600000 in
theorem loadM_found (s : MState) (data : IResource) (i : String) (e : Entry)
    (hid : data.id = some i) (hi : i ≠ "")
    (hfound : mget (cacheOf s (loadTargetType data)).map (some i) = some e) :
    cacheOf (loadM s data none).1 (loadTargetType data) =
      { cacheOf s (loadTargetType data) with
          list := (cacheOf s (loadTargetType data)).list.map
            (fun x => if x.ident = e.ident then e.update data else x),
          map := mset (cacheOf s (loadTargetType data)).map (some i) (e.update data) } ∧
      (∀ u, u ≠ loadTargetType data → cacheOf (loadM s data none).1 u = cacheOf s u) ∧
      (loadM s data none).1.genStore = s.genStore + 1 ∧
      (loadM s data none).1.nextIdent = s.nextIdent ∧
      (loadM s data none).2 = some (e.update data) := by
  unfold loadM
  rw [hid]
  have hb0 : ((none : Option IResource).bind (fun x => x.id)) = none := rfl
  rw [hb0]
  have h1 : jsOrStr (some i) none = some i := by
    unfold jsOrStr jsTruthyStr
    simp [hi]
  rw [h1]
  have h2 : jsTruthyStr (some i) = true := by
    unfold jsTruthyStr
    simp [hi]
  have core : ∀ (tk : String), tk = loadTargetType data →
      normalizeType tk = tk →
      ∀ (P : (MState × Option Entry) → Prop),
      True → True := fun _ _ _ _ _ => trivial
  clear core
  have main : ∀ h3 : True, True := fun _ => trivial
  clear main
  cases hb : data.baseType with
  | none =>
      have ht : loadTargetType data = normalizeType data.typ := by
        simp [loadTargetType, hb]
      rw [ht] at hfound ⊢
      simp only [hb, h2, Bool.not_true, Bool.false_eq_true, if_false, Option.getD_some,
        cacheOf_registerTypeM, cacheOf_genBump, cacheOf_ite_reg]
      rw [hfound, if_neg (not_not_intro trivial)]
      dsimp only
      refine ⟨?_, ?_, ?_, ?_, ?_⟩
      · rw [cacheOf_pollIf, cacheOf_setType_self]
      · intro u hu
        rw [cacheOf_pollIf, cacheOf_setType_ne _ _ _ _ hu]
        simp only [cacheOf_registerTypeM, cacheOf_genBump, cacheOf_ite_reg]
      · rw [genStore_pollIf, genStore_setType, genStore_registerTypeM,
          genStore_genBump, genStore_ite_reg]
      · rw [nextIdent_pollIf, nextIdent_setType, nextIdent_registerTypeM,
          nextIdent_genBump, nextIdent_ite_reg]
      · unfold byIdM
        rw [lookupType_pollIf, normalizeType_idem, lookupType_setType_self]
        dsimp only
        rw [mget_mset_self]
  | some b =>
      by_cases hbe : b ≠ data.typ
      · have ht : loadTargetType data = normalizeType b := by
          simp [loadTargetType, hb, hbe]
        rw [ht] at hfound ⊢
        simp only [hb]
        rw [if_pos hbe]
        simp only [h2, Bool.not_true, Bool.false_eq_true, if_false, Option.getD_some,
          cacheOf_registerTypeM, cacheOf_genBump, cacheOf_ite_reg]
        rw [hfound, if_neg (not_not_intro trivial)]
        dsimp only
        refine ⟨?_, ?_, ?_, ?_, ?_⟩
        · rw [cacheOf_pollIf, cacheOf_setType_self]
        · intro u hu
          rw [cacheOf_pollIf, cacheOf_setType_ne _ _ _ _ hu]
          simp only [cacheOf_registerTypeM, cacheOf_genBump, cacheOf_ite_reg]
        · rw [genStore_pollIf, genStore_setType, genStore_registerTypeM,
            genStore_genBump]
          simp only [genStore_ite_reg]
        · rw [nextIdent_pollIf, nextIdent_setType, nextIdent_registerTypeM,
            nextIdent_genBump]
          simp only [nextIdent_ite_reg]
        · unfold byIdM
          rw [lookupType_pollIf, normalizeType_idem, lookupType_setType_self]
          dsimp only
          rw [mget_mset_self]
      · have ht : loadTargetType data = normalizeType data.typ := by
          simp [loadTargetType, hb, hbe]
        rw [ht] at hfound ⊢
        simp only [hb]
        rw [if_neg hbe]
        simp only [h2, Bool.not_true, Bool.false_eq_true, if_false, Option.getD_some,
          cacheOf_registerTypeM, cacheOf_genBump, cacheOf_ite_reg]
        rw [hfound, if_neg (not_not_intro trivial)]
        dsimp only
        refine ⟨?_, ?_, ?_, ?_, ?_⟩
        · rw [cacheOf_pollIf, cacheOf_setType_self]
        · intro u hu
          rw [cacheOf_pollIf, cacheOf_setType_ne _ _ _ _ hu]
          simp only [cacheOf_registerTypeM, cacheOf_genBump, cacheOf_ite_reg]
        · rw [genStore_pollIf, genStore_setType, genStore_registerTypeM,
            genStore_genBump]
          simp only [genStore_ite_reg]
        · rw [nextIdent_pollIf, nextIdent_setType, nextIdent_registerTypeM,
            nextIdent_genBump]
          simp only [nextIdent_ite_reg]
        · unfold byIdM
          rw [lookupType_pollIf, normalizeType_idem, lookupType_setType_self]
          dsimp only
          rw [mget_mset_self]

set_option maxHeartbeats 1600000 in
theorem loadM_fresh (s : MState) (data : IResource) (i : String)
    (hid : data.id = some i) (hi : i ≠ "")
    (hmiss : mget (cacheOf s (loadTargetType data)).map (some i) = none) :
    cacheOf (loadM s data none).1 (loadTargetType data) =
      { cacheOf s (loadTargetType data) with
          list := (cacheOf s (loadTargetType data)).list ++
            [{ ident := s.nextIdent, data := data }],
          map := mset (cacheOf s (loadTargetType data)).map (some i)
            { ident := s.nextIdent, data := data } } ∧
      (∀ u, u ≠ loadTargetType data → cacheOf (loadM s data none).1 u = cacheOf s u) ∧
      (loadM s data none).1.genStore = s.genStore + 1 ∧
      (loadM s data none).1.nextIdent = s.nextIdent + 1 ∧
      (loadM s data none).2 = some { ident := s.nextIdent, data := data } := by
  unfold loadM
  rw [hid]
  have hb0 : ((none : Option IResource).bind (fun x => x.id)) = none := rfl
  rw [hb0]
  have h1 : jsOrStr (some i) none = some i := by
    unfold jsOrStr jsTruthyStr
    simp [hi]
  rw [h1]
  have h2 : jsTruthyStr (some i) = true := by
    unfold jsTruthyStr
    simp [hi]
  cases hb : data.baseType with
  | none =>
      have ht : loadTargetType data = normalizeType data.typ := by
        simp [loadTargetType, hb]
      rw [ht] at hmiss ⊢
      simp only [hb, h2, Bool.not_true, Bool.false_eq_true, if_false, Option.getD_some,
        decorateM, cacheOf_registerTypeM, cacheOf_genBump, cacheOf_ite_reg]
      rw [hmiss, if_neg (not_not_intro trivial)]
      dsimp only
      refine ⟨?_, ?_, ?_, ?_, ?_⟩
      · rw [cacheOf_pollIf, cacheOf_setType_self]
        simp only [nextIdent_registerTypeM, nextIdent_genBump, nextIdent_ite_reg]
      · intro u hu
        rw [cacheOf_pollIf, cacheOf_setType_ne _ _ _ _ hu, cacheOf_identBump]
        simp only [cacheOf_registerTypeM, cacheOf_genBump, cacheOf_ite_reg]
      · rw [genStore_pollIf, genStore_setType, genStore_identBump,
          genStore_registerTypeM, genStore_genBump]
        simp only [genStore_ite_reg]
      · rw [nextIdent_pollIf, nextIdent_setType, nextIdent_identBump]
        simp only [nextIdent_registerTypeM, nextIdent_genBump, nextIdent_ite_reg]
      · unfold byIdM
        rw [lookupType_pollIf, normalizeType_idem, lookupType_setType_self]
        dsimp only
        rw [mget_mset_self]
        simp only [nextIdent_registerTypeM, nextIdent_genBump, nextIdent_ite_reg]
  | some b =>
      by_cases hbe : b ≠ data.typ
      · have ht : loadTargetType data = normalizeType b := by
          simp [loadTargetType, hb, hbe]
        rw [ht] at hmiss ⊢
        simp only [hb]
        rw [if_pos hbe]
        simp only [h2, Bool.not_true, Bool.false_eq_true, if_false, Option.getD_some,
          decorateM, cacheOf_registerTypeM, cacheOf_genBump, cacheOf_ite_reg]
        rw [hmiss, if_neg (not_not_intro trivial)]
        dsimp only
        refine ⟨?_, ?_, ?_, ?_, ?_⟩
        · rw [cacheOf_pollIf, cacheOf_setType_self]
          simp only [nextIdent_registerTypeM, nextIdent_genBump, nextIdent_ite_reg]
        · intro u hu
          rw [cacheOf_pollIf, cacheOf_setType_ne _ _ _ _ hu, cacheOf_identBump]
          simp only [cacheOf_registerTypeM, cacheOf_genBump, cacheOf_ite_reg]
        · rw [genStore_pollIf, genStore_setType, genStore_identBump,
            genStore_registerTypeM, genStore_genBump]
          simp only [genStore_ite_reg]
        · rw [nextIdent_pollIf, nextIdent_setType, nextIdent_identBump]
          simp only [nextIdent_registerTypeM, nextIdent_genBump, nextIdent_ite_reg]
        · unfold byIdM
          rw [lookupType_pollIf, normalizeType_idem, lookupType_setType_self]
          dsimp only
          rw [mget_mset_self]
          simp only [nextIdent_registerTypeM, nextIdent_genBump, nextIdent_ite_reg]
      · have ht : loadTargetType data = normalizeType data.typ := by
          simp [loadTargetType, hb, hbe]
        rw [ht] at hmiss ⊢
        simp only [hb]
        rw [if_neg hbe]
        simp only [h2, Bool.not_true, Bool.false_eq_true, if_false, Option.getD_some,
          decorateM, cacheOf_registerTypeM, cacheOf_genBump, cacheOf_ite_reg]
        rw [hmiss, if_neg (not_not_intro trivial)]
        dsimp only
        refine ⟨?_, ?_, ?_, ?_, ?_⟩
        · rw [cacheOf_pollIf, cacheOf_setType_self]
          simp only [nextIdent_registerTypeM, nextIdent_genBump, nextIdent_ite_reg]
        · intro u hu
          rw [cacheOf_pollIf, cacheOf_setType_ne _ _ _ _ hu, cacheOf_identBump]
          simp only [cacheOf_registerTypeM, cacheOf_genBump, cacheOf_ite_reg]
        · rw [genStore_pollIf, genStore_setType, genStore_identBump,
            genStore_registerTypeM, genStore_genBump]
          simp only [genStore_ite_reg]
        · rw [nextIdent_pollIf, nextIdent_setType, nextIdent_identBump]
          simp only [nextIdent_registerTypeM, nextIdent_genBump, nextIdent_ite_reg]
        · unfold byIdM
          rw [lookupType_pollIf, normalizeType_idem, lookupType_setType_self]
          dsimp only
          rw [mget_mset_self]
          simp only [nextIdent_registerTypeM, nextIdent_genBump, nextIdent_ite_reg]

theorem loadM_stores (s : MState) (r : IResource) (i : String)
    (hid : r.id = some i) (hi : i ≠ "") :
    ∃ e2 : Entry,
      mget (cacheOf (loadM s r none).1 (loadTargetType r)).map (some i) = some e2 ∧
        e2.data = r := by
  cases hf : mget (cacheOf s (loadTargetType r)).map (some i) with
  | some e0 =>
      obtain ⟨hcache, _, _, _, _⟩ := loadM_found s r i e0 hid hi hf
      refine ⟨e0.update r, ?_, rfl⟩
      rw [hcache]
      exact mget_mset_self _ _ _
  | none =>
      obtain ⟨hcache, _, _, _, _⟩ := loadM_fresh s r i hid hi hf
      refine ⟨{ ident := s.nextIdent, data := r }, ?_, rfl⟩
      rw [hcache]
      exact mget_mset_self _ _ _

theorem load_idem_part (s : MState) (r : IResource) (i : String)
    (hid : r.id = some i) (hi : i ≠ "") :
    ((cacheOf (loadM (loadM s r none).1 r none).1 (loadTargetType r)).list.length =
      (cacheOf (loadM s r none).1 (loadTargetType r)).list.length) ∧
    ((cacheOf (loadM (loadM s r none).1 r none).1 (loadTargetType r)).map.length =
      (cacheOf (loadM s r none).1 (loadTargetType r)).map.length) ∧
    (∃ e : Entry,
      mget (cacheOf (loadM s r none).1 (loadTargetType r)).map (some i) = some e ∧
      mget (cacheOf (loadM (loadM s r none).1 r none).1 (loadTargetType r)).map
        (some i) = some e) := by
  obtain ⟨e1, hfind1, hdata1⟩ := loadM_stores s r i hid hi
  obtain ⟨hcache2, _, _, _, _⟩ := loadM_found (loadM s r none).1 r i e1 hid hi hfind1
  have hupd : e1.update r = e1 := by
    unfold Entry.update
    cases e1 with
    | mk id1 d1 =>
        simp only at hdata1
        rw [hdata1]
  constructor
  · rw [hcache2]
    simp
  constructor
  · rw [hcache2]
    simp only
    rw [hupd]
    exact length_mset_of_found _ _ _ _ hfind1
  · refine ⟨e1, hfind1, ?_⟩
    rw [hcache2]
    simp only
    rw [hupd]
    exact mget_mset_self _ _ _

theorem loadTargetType_congr (r1 r2 : IResource) (ht : r2.typ = r1.typ)
    (hbt : r2.baseType = r1.baseType) : loadTargetType r2 = loadTargetType r1 := by
  unfold loadTargetType
  rw [ht, hbt]

theorem load_upsert_part (s : MState) (r1 r2 : IResource) (i : String)
    (hid1 : r1.id = some i) (hid2 : r2.id = some i) (hi : i ≠ "")
    (ht : r2.typ = r1.typ) (hbt : r2.baseType = r1.baseType)
    (hmiss : mget (cacheOf s (loadTargetType r1)).map (some i) = none)
    (hcount : (cacheOf s (loadTargetType r1)).list.countP
      (fun e => e.data.id == some i) = 0)
    (hbound : ∀ e ∈ (cacheOf s (loadTargetType r1)).list, e.ident < s.nextIdent) :
    ((loadM (loadM s r1 none).1 r2 none).2 =
      some { ident := s.nextIdent, data := r2 }) ∧
    ((cacheOf (loadM (loadM s r1 none).1 r2 none).1 (loadTargetType r1)).list.countP
      (fun e => e.data.id == some i) = 1) ∧
    ((cacheOf (loadM (loadM s r1 none).1 r2 none).1 (loadTargetType r1)).list.length =
      (cacheOf (loadM s r1 none).1 (loadTargetType r1)).list.length) := by
  have htar : loadTargetType r2 = loadTargetType r1 := loadTargetType_congr r1 r2 ht hbt
  obtain ⟨hc1, _, _, _, _⟩ := loadM_fresh s r1 i hid1 hi hmiss
  set s1 := (loadM s r1 none).1 with hs1
  have hfind1 : mget (cacheOf s1 (loadTargetType r2)).map (some i) =
      some { ident := s.nextIdent, data := r1 } := by
    rw [htar, hc1]
    exact mget_mset_self _ _ _
  obtain ⟨hc2, _, _, _, hret2⟩ :=
    loadM_found s1 r2 i { ident := s.nextIdent, data := r1 } hid2 hi
      (by rw [htar] at hfind1 ⊢; exact hfind1)
  rw [htar] at hc2
  have hlist1 : (cacheOf s1 (loadTargetType r1)).list =
      (cacheOf s (loadTargetType r1)).list ++ [{ ident := s.nextIdent, data := r1 }] := by
    rw [hc1]
  have hlist2 : (cacheOf (loadM s1 r2 none).1 (loadTargetType r1)).list =
      (cacheOf s (loadTargetType r1)).list ++ [{ ident := s.nextIdent, data := r2 }] := by
    rw [hc2]
    simp only [hlist1, List.map_append, List.map_cons, List.map_nil]
    have hmapid :
        List.map (fun x => if x.ident = s.nextIdent then
          Entry.update { ident := s.nextIdent, data := r1 } r2 else x)
          (cacheOf s (loadTargetType r1)).list =
        (cacheOf s (loadTargetType r1)).list := by
      calc List.map (fun x => if x.ident = s.nextIdent then
              Entry.update { ident := s.nextIdent, data := r1 } r2 else x)
              (cacheOf s (loadTargetType r1)).list =
            List.map id (cacheOf s (loadTargetType r1)).list := by
              apply List.map_congr_left
              intro a ha
              have hne : a.ident ≠ s.nextIdent := Nat.ne_of_lt (hbound a ha)
              simp [hne]
        _ = (cacheOf s (loadTargetType r1)).list := List.map_id _
    rw [hmapid]
    rfl
  refine ⟨?_, ?_, ?_⟩
  · rw [hret2]
    rfl
  · rw [hlist2, List.countP_append, hcount]
    simp [hid2]
  · rw [hlist2, hlist1]
    simp

theorem load_missing_id (s : MState) (data : IResource) (existing : Option IResource)
    (hd : data.id = none) (he : (existing.bind (·.id)) = none) :
    (loadM s data existing).2 = none ∧
      (loadM s data existing).1.genStore = s.genStore ∧
      ∀ t, cacheOf (loadM s data existing).1 t = cacheOf s t := by
  unfold loadM
  rw [hd, he]
  have hj : jsTruthyStr (jsOrStr none none) = false := by decide
  simp only [hj]
  cases hb : data.baseType with
  | none =>
      simp [genStore_ite_reg, cacheOf_ite_reg, typeRegistered]
  | some b =>
      by_cases hbe : b ≠ data.typ <;>
        simp [hbe, genStore_ite_reg, cacheOf_ite_reg, typeRegistered]

/-- **C9**: a `load(data, existing)` call in which neither `data.id` nor
`existing.id` is defined stores nothing: it returns without a decorated
result, the global generation counter is untouched, and every type
cache's content (its `list` and `map`) is exactly what it was before —
the malformed resource is logged and dropped, not fatal. -/
theorem claim_C9_load_without_id_is_dropped :
    ∀ (s : MState) (data : IResource) (existing : Option IResource),
      data.id = none → (existing.bind (·.id)) = none →
        (loadM s data existing).2 = none ∧
          (loadM s data existing).1.genStore = s.genStore ∧
          ∀ t, cacheOf (loadM s data existing).1 t = cacheOf s t :=
  fun s data existing hd he => load_missing_id s data existing hd he

theorem claim_C9_load_without_id_is_dropped_witness :
    (({ typ := "pod" } : IResource).id = none) ∧
      (loadM ({} : MState) { typ := "pod" } none).2 = none ∧
      (loadM ({} : MState) { typ := "pod" } none).1.genStore = 0 ∧
      cacheOf (loadM ({} : MState) { typ := "pod" } none).1 "pod" =
        cacheOf ({} : MState) "pod" :=
  ⟨rfl,
    (claim_C9_load_without_id_is_dropped {} { typ := "pod" } none rfl rfl).1,
    (claim_C9_load_without_id_is_dropped {} { typ := "pod" } none rfl rfl).2.1,
    (claim_C9_load_without_id_is_dropped {} { typ := "pod" } none rfl rfl).2.2 "pod"⟩

/-- **C2**: `load` is an idempotent upsert.  (1) For every resource `r`
with a (truthy) id, a second `load(r)` leaves the target type cache's
list length and map size unchanged, and the decorated instance stored for
`r.id` is the same instance (same `ident`, same value) before and after
the second call.  (2) Loading `{id := i, v := 1}` then `{id := i, v := 2}`
into a cache without `i` makes `byId` (the value `load` returns) carry the
later fields while the list holds exactly one entry for `i`, its length
unchanged by the second load. -/
theorem claim_C2_load_idempotent_upsert :
    (∀ (s : MState) (r : IResource) (i : String), r.id = some i → i ≠ "" →
      ((cacheOf (loadM (loadM s r none).1 r none).1 (loadTargetType r)).list.length =
        (cacheOf (loadM s r none).1 (loadTargetType r)).list.length) ∧
      ((cacheOf (loadM (loadM s r none).1 r none).1 (loadTargetType r)).map.length =
        (cacheOf (loadM s r none).1 (loadTargetType r)).map.length) ∧
      (∃ e : Entry,
        mget (cacheOf (loadM s r none).1 (loadTargetType r)).map (some i) = some e ∧
        mget (cacheOf (loadM (loadM s r none).1 r none).1 (loadTargetType r)).map
          (some i) = some e)) ∧
    (∀ (s : MState) (r1 r2 : IResource) (i : String),
      r1.id = some i → r2.id = some i → i ≠ "" →
      r2.typ = r1.typ → r2.baseType = r1.baseType →
      mget (cacheOf s (loadTargetType r1)).map (some i) = none →
      (cacheOf s (loadTargetType r1)).list.countP
        (fun e => e.data.id == some i) = 0 →
      (∀ e ∈ (cacheOf s (loadTargetType r1)).list, e.ident < s.nextIdent) →
      ((loadM (loadM s r1 none).1 r2 none).2 =
        some { ident := s.nextIdent, data := r2 }) ∧
      ((cacheOf (loadM (loadM s r1 none).1 r2 none).1
          (loadTargetType r1)).list.countP (fun e => e.data.id == some i) = 1) ∧
      ((cacheOf (loadM (loadM s r1 none).1 r2 none).1 (loadTargetType r1)).list.length =
        (cacheOf (loadM s r1 none).1 (loadTargetType r1)).list.length)) :=
  ⟨fun s r i h1 h2 => load_idem_part s r i h1 h2,
    fun s r1 r2 i h1 h2 h3 h4 h5 h6 h7 h8 =>
      load_upsert_part s r1 r2 i h1 h2 h3 h4 h5 h6 h7 h8⟩

theorem claim_C2_load_idempotent_upsert_witness :
    (({ typ := "pod", id := some "a", v := 1 } : IResource).id = some "a") ∧
    ((cacheOf (loadM (loadM ({} : MState)
        { typ := "pod", id := some "a", v := 1 } none).1
        { typ := "pod", id := some "a", v := 1 } none).1
        (loadTargetType { typ := "pod", id := some "a", v := 1 })).list.length =
      (cacheOf (loadM ({} : MState) { typ := "pod", id := some "a", v := 1 } none).1
        (loadTargetType { typ := "pod", id := some "a", v := 1 })).list.length) ∧
    ((loadM (loadM ({} : MState) { typ := "pod", id := some "a", v := 1 } none).1
        { typ := "pod", id := some "a", v := 2 } none).2 =
      some { ident := 0, data := { typ := "pod", id := some "a", v := 2 } }) ∧
    ((cacheOf (loadM (loadM ({} : MState)
        { typ := "pod", id := some "a", v := 1 } none).1
        { typ := "pod", id := some "a", v := 2 } none).1
        (loadTargetType { typ := "pod", id := some "a", v := 1 })).list.countP
      (fun e => e.data.id == some "a") = 1) :=
  ⟨rfl,
    (claim_C2_load_idempotent_upsert.1 {} { typ := "pod", id := some "a", v := 1 }
      "a" rfl (by decide)).1,
    (claim_C2_load_idempotent_upsert.2 {} { typ := "pod", id := some "a", v := 1 }
      { typ := "pod", id := some "a", v := 2 } "a" rfl rfl (by decide) rfl rfl
      (by decide) (by decide) (by decide)).1,
    (claim_C2_load_idempotent_upsert.2 {} { typ := "pod", id := some "a", v := 1 }
      { typ := "pod", id := some "a", v := 2 } "a" rfl rfl (by decide) rfl rfl
      (by decide) (by decide) (by decide)).2.1⟩

theorem count_removeFirst (l : List Entry) (o : Entry) (h : o ∈ l) :
    (removeFirst l o).count o = l.count o - 1 := by
  induction l with
  | nil => cases h
  | cons b rest ih =>
      by_cases hb : b = o
      · unfold removeFirst
        rw [if_pos hb, hb]
        simp [List.count_cons]
      · unfold removeFirst
        rw [if_neg hb]
        have hmem : o ∈ rest := by
          cases h with
          | head => exact absurd rfl hb
          | tail _ h2 => exact h2
        have hbo : ¬ (b == o) := by simp [hb]
        simp [List.count_cons, hb, ih hmem]

theorem length_removeFirst (l : List Entry) (o : Entry) (h : o ∈ l) :
    (removeFirst l o).length = l.length - 1 := by
  induction l with
  | nil => cases h
  | cons b rest ih =>
      by_cases hb : b = o
      · unfold removeFirst
        rw [if_pos hb]
        simp
      · unfold removeFirst
        rw [if_neg hb]
        have hmem : o ∈ rest := by
          cases h with
          | head => exact absurd rfl hb
          | tail _ h2 => exact h2
        have : 1 ≤ rest.length := by
          cases rest with
          | nil => cases hmem
          | cons x xs => simp [Nat.succ_le_succ, Nat.zero_le]
        simp [List.length_cons, ih hmem]
        omega

theorem eget_edel_self (m : List (String × Entry)) (k : String)
    (hnd : (m.map Prod.fst).Nodup) : eget (edel m k) k = none := by
  induction m with
  | nil => rfl
  | cons p rest ih =>
      obtain ⟨k', v'⟩ := p
      simp only [List.map_cons, List.nodup_cons] at hnd
      by_cases hk : k' = k
      · unfold edel
        rw [if_pos hk]
        subst hk
        unfold eget
        cases hf : rest.find? (fun p => p.1 = k') with
        | none => simp [hf]
        | some q =>
            exfalso
            have hmem := List.mem_of_find?_eq_some hf
            have hpred := List.find?_some hf
            simp at hpred
            apply hnd.1
            rw [← hpred]
            exact List.mem_map_of_mem Prod.fst hmem
      · unfold edel eget
        rw [if_neg hk, List.find?_cons_of_neg _ (by simp [hk])]
        exact ih hnd.2

theorem mget_none_of_defined_keys (m : List (JKey × Entry))
    (h : ∀ p ∈ m, p.1 ≠ none) : mget m none = none := by
  induction m with
  | nil => rfl
  | cons p rest ih =>
      unfold mget
      rw [List.find?_cons_of_neg _ (by simp; exact h p (List.mem_cons_self p rest))]
      exact ih (fun q hq => h q (List.mem_cons_of_mem p hq))

theorem remove_object_present (s : MState) (o : Entry)
    (hmem : o ∈ s.listStore)
    (hnd : (s.mapStore.map Prod.fst).Nodup) :
    (removeM s (.inl o)).2 = true ∧
      (removeM s (.inl o)).1.listStore.count o = s.listStore.count o - 1 ∧
      (removeM s (.inl o)).1.listStore.length = s.listStore.length - 1 ∧
      eget (removeM s (.inl o)).1.mapStore (jsTemplate o.data.id) = none ∧
      (removeM s (.inl o)).1.genStore = s.genStore + 1 := by
  unfold removeM
  dsimp only
  exact ⟨rfl, count_removeFirst _ _ hmem, length_removeFirst _ _ hmem,
    eget_edel_self _ _ hnd, rfl⟩

theorem remove_string_never_finds (s : MState) (str : String)
    (h : ∀ p ∈ (cacheOf s (normalizeType str)).map, p.1 ≠ none) :
    removeM s (.inr str) = (s, false) := by
  unfold removeM byIdM
  dsimp only
  cases hl : lookupType s (normalizeType str) with
  | none => rfl
  | some c =>
      have hc : cacheOf s (normalizeType str) = c := by
        unfold cacheOf
        rw [hl]
        rfl
      rw [hc] at h
      dsimp only
      rw [mget_none_of_defined_keys c.map h]

/-- **C7 counterexample**: the claim "`remove(idOrResource)` removes the
resource from both `list` and `map` when it is present (accepting either
a stored resource object or its string id)" is false as stated: with the
resource stored in the store-level `list` and `map` (and in the `pod`
type cache), `remove` called with the id string `"p1"` removes nothing
and returns `false`, because `remove` passes the id to `byId` in its
`type` parameter (`byId` takes `(type, id)`), so the lookup searches a
type cache named `"p1"` with an `undefined` id. -/
theorem claim_C7_remove_counterexample :
    c7entry ∈ c7state.listStore ∧
      eget c7state.mapStore "p1" = some c7entry ∧
      removeM c7state (.inr "p1") = (c7state, false) := by
  refine ⟨by decide, by decide, ?_⟩
  decide

/-- **C7 (amended)**: `remove` given the stored resource *object* removes
it from the store-level `list` and `map` (one occurrence from the list,
the binding for its id from the map), returns `true`, and bumps
`generation`; given a *string* id, `byId` receives the id as the type
name and `undefined` as the id, so — whenever the caches key their
entries by defined ids — no resource is found, nothing is removed and
`false` is returned. -/
theorem claim_C7_remove_amended :
    (∀ (s : MState) (o : Entry), o ∈ s.listStore →
      (s.mapStore.map Prod.fst).Nodup →
      (removeM s (.inl o)).2 = true ∧
        (removeM s (.inl o)).1.listStore.count o = s.listStore.count o - 1 ∧
        (removeM s (.inl o)).1.listStore.length = s.listStore.length - 1 ∧
        eget (removeM s (.inl o)).1.mapStore (jsTemplate o.data.id) = none ∧
        (removeM s (.inl o)).1.genStore = s.genStore + 1) ∧
    (∀ (s : MState) (str : String),
      (∀ p ∈ (cacheOf s (normalizeType str)).map, p.1 ≠ none) →
      removeM s (.inr str) = (s, false)) :=
  ⟨fun s o h1 h2 => remove_object_present s o h1 h2,
    fun s str h => remove_string_never_finds s str h⟩

theorem claim_C7_remove_amended_witness :
    ((removeM c7state (.inl c7entry)).2 = true) ∧
      (eget (removeM c7state (.inl c7entry)).1.mapStore "p1" = none) ∧
      ((removeM c7state (.inl c7entry)).1.genStore = c7state.genStore + 1) ∧
      (removeM ({} : MState) (.inr "p1") = ({}, false)) :=
  ⟨(claim_C7_remove_amended.1 c7state c7entry (by decide) (by decide)).1,
    (claim_C7_remove_amended.1 c7state c7entry (by decide) (by decide)).2.2.2.1,
    (claim_C7_remove_amended.1 c7state c7entry (by decide) (by decide)).2.2.2.2,
    claim_C7_remove_amended.2 {} "p1" (by decide)⟩

theorem rget_rset_self (m : List (String × String)) (k v : String) :
    rget (rset m k v) k = some v := by
  induction m with
  | nil =>
      unfold rset rget
      rw [List.find?_cons_of_pos _ (by simp)]
      rfl
  | cons p rest ih =>
      obtain ⟨k', v'⟩ := p
      by_cases h : k' = k
      · unfold rset rget
        rw [if_pos h, List.find?_cons_of_pos _ (by simp)]
        rfl
      · unfold rset rget
        rw [if_neg h, List.find?_cons_of_neg _ (by simp [h])]
        exact ih

theorem rget_rdel_self (m : List (String × String)) (k : String)
    (hnd : (m.map Prod.fst).Nodup) : rget (rdel m k) k = none := by
  induction m with
  | nil => rfl
  | cons p rest ih =>
      obtain ⟨k', v'⟩ := p
      simp only [List.map_cons, List.nodup_cons] at hnd
      by_cases hk : k' = k
      · unfold rdel
        rw [if_pos hk]
        subst hk
        unfold rget
        cases hf : rest.find? (fun p => p.1 = k') with
        | none => simp [hf]
        | some q =>
            exfalso
            have hmem := List.mem_of_find?_eq_some hf
            have hpred := List.find?_some hf
            simp at hpred
            apply hnd.1
            rw [← hpred]
            exact List.mem_map_of_mem Prod.fst hmem
      · unfold rdel rget
        rw [if_neg hk, List.find?_cons_of_neg _ (by simp [hk])]
        exact ih hnd.2

theorem wsResourceError_sets_no_watch (s : MState) (msg : InMsg) (e : String)
    (he : msg.data.bind (·.error) = some e)
    (hinc : jsIncludes (jsToLower e) "watch not allowed" = true) :
    wsResourceErrorM s msg =
      some (setInErrorM s { typ := msg.resourceType } NO_WATCH) ∧
    rget (setInErrorM s { typ := msg.resourceType } NO_WATCH).inError
      (keyForSubscribe { typ := msg.resourceType }) = some NO_WATCH := by
  constructor
  · unfold wsResourceErrorM
    rw [he]
    dsimp only
    rw [if_pos hinc]
  · unfold setInErrorM
    dsimp only
    exact rget_rset_self _ _ _

theorem watch_suppressed_in_error (s : MState) (p : WatchDesc)
    (hstop : p.stop = false) (hforce : p.force = false)
    (herr : jsTruthyStr (rget s.inError (keyForSubscribe p)) = true) :
    watchM s p = s := by
  unfold watchM canWatchM
  rw [herr]
  simp [hstop, hforce]

theorem error_cleared (s : MState) (w : WatchDesc)
    (hnd : (s.inError.map Prod.fst).Nodup) :
    rget (clearInErrorM s w).inError (keyForSubscribe w) = none ∧
      rget (setWatchStartedM s w).inError (keyForSubscribe w) = none := by
  constructor
  · unfold clearInErrorM
    exact rget_rdel_self _ _ hnd
  · unfold setWatchStartedM
    cases existingWatchForM s w <;>
      exact rget_rdel_self _ _ hnd

/-- **C5**: after a `ws.resource.error` message whose error text contains
"watch not allowed" is processed, the store records `NO_WATCH` under the
key of the descriptor `{type := msg.resourceType}`; every subsequent
`watch` call for a descriptor whose key carries a recorded (truthy) error
and which sets neither `stop` nor `force` is a no-op (the state — in
particular the log of sent frames — is unchanged); and the error entry is
removed by `clearInError` or `setWatchStarted` for that descriptor. -/
theorem claim_C5_watch_not_allowed_suppression :
    (∀ (s : MState) (msg : InMsg) (e : String),
      msg.data.bind (·.error) = some e →
      jsIncludes (jsToLower e) "watch not allowed" = true →
      wsResourceErrorM s msg =
        some (setInErrorM s { typ := msg.resourceType } NO_WATCH) ∧
      rget (setInErrorM s { typ := msg.resourceType } NO_WATCH).inError
        (keyForSubscribe { typ := msg.resourceType }) = some NO_WATCH) ∧
    (∀ (s : MState) (p : WatchDesc),
      p.stop = false → p.force = false →
      jsTruthyStr (rget s.inError (keyForSubscribe p)) = true →
      watchM s p = s) ∧
    (∀ (s : MState) (w : WatchDesc), (s.inError.map Prod.fst).Nodup →
      rget (clearInErrorM s w).inError (keyForSubscribe w) = none ∧
      rget (setWatchStartedM s w).inError (keyForSubscribe w) = none) :=
  ⟨fun s msg e he hinc => wsResourceError_sets_no_watch s msg e he hinc,
    fun s p h1 h2 h3 => watch_suppressed_in_error s p h1 h2 h3,
    fun s w hnd => error_cleared s w hnd⟩

theorem claim_C5_watch_not_allowed_suppression_witness :
    (wsResourceErrorM {}
        { name := some "resource.error", resourceType := some "pod",
          data := some { error := some "watch not allowed on pods" } } =
      some (setInErrorM {} { typ := some "pod" } NO_WATCH)) ∧
    (watchM (setInErrorM {} { typ := some "pod" } NO_WATCH) { typ := some "pod" } =
      setInErrorM {} { typ := some "pod" } NO_WATCH) ∧
    (rget (clearInErrorM (setInErrorM {} { typ := some "pod" } NO_WATCH)
        { typ := some "pod" }).inError
      (keyForSubscribe { typ := some "pod" }) = none) :=
  ⟨(claim_C5_watch_not_allowed_suppression.1 {}
      { name := some "resource.error", resourceType := some "pod",
        data := some { error := some "watch not allowed on pods" } }
      "watch not allowed on pods" rfl (by decide)).1,
    claim_C5_watch_not_allowed_suppression.2.1
      (setInErrorM {} { typ := some "pod" } NO_WATCH) { typ := some "pod" }
      rfl rfl (by decide),
    (claim_C5_watch_not_allowed_suppression.2.2
      (setInErrorM {} { typ := some "pod" } NO_WATCH) { typ := some "pod" }
      (by decide)).1⟩

theorem apiListGo_chain (env : String → Option (ApiPage α)) (dest : String) :
    ∀ (ps : List (ApiPage α)) (p : ApiPage α) (acc : List α) (fuel : Nat),
      chainServed env dest p ps →
      (∀ q ∈ p :: ps, q.object = "list") →
      lastHasMore p ps = false →
      ps.length ≤ fuel →
      apiListGo env dest fuel p acc = some (acc ++ (ps.map (·.data)).join) := by
  intro ps
  induction ps with
  | nil =>
      intro p acc fuel _ _ hlast _
      unfold apiListGo
      unfold lastHasMore at hlast
      rw [hlast]
      simp
  | cons q rest ih =>
      intro p acc fuel hchain hobj hlast hfuel
      unfold chainServed at hchain
      obtain ⟨hmore, henv, hchain'⟩ := hchain
      unfold apiListGo
      have hpobj : p.object = "list" := hobj p (List.mem_cons_self p _)
      rw [if_pos ⟨hpobj, hmore⟩]
      cases fuel with
      | zero => simp at hfuel
      | succ f =>
          dsimp only
          rw [henv]
          dsimp only
          have hobj' : ∀ r ∈ q :: rest, r.object = "list" := by
            intro r hr
            exact hobj r (List.mem_cons_of_mem p hr)
          have hlast' : lastHasMore q rest = false := hlast
          have hfuel' : rest.length ≤ f := by
            simp only [List.length_cons] at hfuel
            omega
          rw [ih q (acc ++ q.data) f hchain' hobj' hlast' hfuel']
          simp

theorem apiList_depaginates (env : String → Option (ApiPage α)) (dest : String)
    (p : ApiPage α) (ps : List (ApiPage α)) (fuel : Nat)
    (hfirst : env dest = some p)
    (hchain : chainServed env dest p ps)
    (hobj : ∀ q ∈ p :: ps, q.object = "list")
    (hlast : lastHasMore p ps = false)
    (hfuel : ps.length ≤ fuel) :
    apiListM env dest fuel = some (((p :: ps).map (·.data)).join) := by
  unfold apiListM
  rw [hfirst]
  dsimp only
  rw [apiListGo_chain env dest ps p p.data fuel hchain hobj hlast hfuel]
  simp

/-- **C6**: depagination round-trip.  For every chain of list responses in
which each page carries `object == "list"`, a `has_more` flag and a
`last_id` cursor — the environment serving page `k+1` at
`to?after=<last_id of page k>`, `has_more` true on every page but the
last and false on the last — `apiList` returns the concatenation of all
pages' `data` arrays in page order. -/
theorem claim_C6_apiList_depagination :
    ∀ (α : Type) (env : String → Option (ApiPage α)) (dest : String)
      (p : ApiPage α) (ps : List (ApiPage α)) (fuel : Nat),
      env dest = some p →
      chainServed env dest p ps →
      (∀ q ∈ p :: ps, q.object = "list") →
      lastHasMore p ps = false →
      ps.length ≤ fuel →
      apiListM env dest fuel = some (((p :: ps).map (·.data)).join) :=
  fun _ env dest p ps fuel h1 h2 h3 h4 h5 =>
    apiList_depaginates env dest p ps fuel h1 h2 h3 h4 h5

theorem claim_C6_apiList_depagination_witness :
    apiListM
      (fun u =>
        if u = "/ms" then
          some { object := "list", has_more := true, last_id := some "a2",
                 data := [(1 : Int), 2] }
        else if u = "/ms?after=a2" then
          some { object := "list", has_more := true, last_id := some "b2",
                 data := [3] }
        else if u = "/ms?after=b2" then
          some { object := "list", has_more := false, data := [4, 5] }
        else none)
      "/ms" 2 = some [1, 2, 3, 4, 5] :=
  claim_C6_apiList_depagination Int
    (fun u =>
      if u = "/ms" then
        some { object := "list", has_more := true, last_id := some "a2",
               data := [(1 : Int), 2] }
      else if u = "/ms?after=a2" then
        some { object := "list", has_more := true, last_id := some "b2",
               data := [3] }
      else if u = "/ms?after=b2" then
        some { object := "list", has_more := false, data := [4, 5] }
      else none)
    "/ms"
    { object := "list", has_more := true, last_id := some "a2", data := [1, 2] }
    [{ object := "list", has_more := true, last_id := some "b2", data := [3] },
     { object := "list", has_more := false, data := [4, 5] }]
    2 (by decide)
    (by unfold chainServed; exact ⟨rfl, by decide, rfl, by decide, trivial⟩)
    (by decide) (by decide) (by decide)

theorem mfCmp_zero_of_not_id (key : String) (order : Option String)
    (hk : key ≠ "id") (a b : Modelfile) : mfCmp (some key) order a b = 0 := by
  unfold mfCmp
  by_cases ht : jsTruthyStr (some key) = true
  · rw [if_neg (by simp [ht])]
    dsimp only [Option.getD_some]
    unfold mfProp jsLtStr
    rw [if_neg hk, if_neg hk]
    simp
  · rw [if_pos (by simpa using ht)]

theorem jsSortStable_const_zero (cmp : α → α → Int) (h : ∀ a b, cmp a b = 0) :
    ∀ l : List α, jsSortStable cmp l = l := by
  intro l
  induction l with
  | nil => rfl
  | cons a rest ih =>
      unfold jsSortStable
      rw [ih]
      cases rest with
      | nil => rfl
      | cons b rs =>
          unfold jsInsert
          rw [h a b]
          simp

theorem modelfilesHandler_dotted_sort_noop (files : List Modelfile)
    (q : Option String) (ids models modelIds : List String)
    (key : String) (order : Option String) (hk : key ≠ "id") :
    modelfilesHandler files q ids models modelIds (some key) order =
      modelfilesHandler files q ids models modelIds none order := by
  unfold modelfilesHandler
  rw [jsSortStable_const_zero _ (fun a b => mfCmp_zero_of_not_id key order hk a b),
    jsSortStable_const_zero _ (fun a b => by unfold mfCmp; simp [jsTruthyStr])]

/-- **C10**: in the modelfiles route, a `sort` value that is not the
top-level property `id` (in particular the dotted values `status.model`,
`status.modelID`, `status.byteSize`) reads a property literally named by
the dotted string, which is `undefined` on both operands, so the
comparator returns `0` on every pair, the stable sort leaves any list
unchanged, and the handler's result is the filtered list in its original
order (identical to not sorting at all); only `sort = "id"` actually
reorders, as the concrete two-element example shows. -/
theorem claim_C10_modelfiles_dotted_sort_is_noop :
    (∀ (key : String) (order : Option String) (a b : Modelfile), key ≠ "id" →
      mfCmp (some key) order a b = 0) ∧
    (∀ (l : List Modelfile) (key : String) (order : Option String), key ≠ "id" →
      jsSortStable (mfCmp (some key) order) l = l) ∧
    (∀ (files : List Modelfile) (q : Option String)
      (ids models modelIds : List String) (key : String) (order : Option String),
      key ≠ "id" →
      modelfilesHandler files q ids models modelIds (some key) order =
        modelfilesHandler files q ids models modelIds none order) ∧
    (modelfilesHandler
        [{ id := "b", status := { model := "m2" } },
         { id := "a", status := { model := "m1" } }]
        none [] [] [] (some "id") (some "asc") =
      [{ id := "a", status := { model := "m1" } },
       { id := "b", status := { model := "m2" } }]) :=
  ⟨fun key order a b hk => mfCmp_zero_of_not_id key order hk a b,
    fun l key order hk =>
      jsSortStable_const_zero _ (fun a b => mfCmp_zero_of_not_id key order hk a b) l,
    fun files q ids models modelIds key order hk =>
      modelfilesHandler_dotted_sort_noop files q ids models modelIds key order hk,
    by decide⟩

theorem claim_C10_modelfiles_dotted_sort_is_noop_witness :
    (mfCmp (some "status.model") (some "asc")
        { id := "b", status := { model := "m2" } }
        { id := "a", status := { model := "m1" } } = 0) ∧
    (modelfilesHandler
        [{ id := "b", status := { model := "m2" } },
         { id := "a", status := { model := "m1" } }]
        none [] [] [] (some "status.model") (some "asc") =
      modelfilesHandler
        [{ id := "b", status := { model := "m2" } },
         { id := "a", status := { model := "m1" } }]
        none [] [] [] none (some "asc")) :=
  ⟨claim_C10_modelfiles_dotted_sort_is_noop.1 "status.model" (some "asc")
      { id := "b", status := { model := "m2" } }
      { id := "a", status := { model := "m1" } } (by decide),
    claim_C10_modelfiles_dotted_sort_is_noop.2.2.1
      [{ id := "b", status := { model := "m2" } },
       { id := "a", status := { model := "m1" } }]
      none [] [] [] "status.model" (some "asc") (by decide)⟩

/-- **C1** (code bug): the caching contract of `findAll` is broken in the
code.  On a store with the `pod` schema loaded, a first
`findAll("pod", {})` succeeds, performs one request and sets the
*per-type* `haveAll` of the `pod` bucket — but the *store-level*
`haveAll` that `findAll` checks is never set, so a second
`findAll("pod", {})` with default options performs another network
request instead of returning the cached list. -/
theorem claim_C1_findAll_second_call_still_requests :
    ((findAllM c1state "pod" {}).toOption.map
      (fun r => ((cacheOf r.2 "pod").haveAll, r.2.haveAllStore, r.2.requests.length)) =
      some (true, false, 1)) ∧
    (((findAllM c1state "pod" {}).toOption.bind
      (fun r => (findAllM r.2 "pod" {}).toOption)).map
        (fun r => r.2.requests.length) = some 2) := by
  refine ⟨?_, ?_⟩
  · decide
  · decide

/-- **C8** (code bug): an inbound message whose name matches no handler
and contains no dot (`"created"`) is *not* processed as a
`resource.change` event — the compatibility branch assigns
`msg.name = "resource.change"` and then falls through without invoking
any handler, so the state (in particular the change queue) is unchanged;
by contrast the same message named `resource.change` does queue a load
action; a message with an unknown dotted name is logged and dropped, as
the claim says. -/
theorem claim_C8_non_dotted_unknown_name_is_dropped :
    (dispatchMessageM c8state
      { name := some "created", resourceType := some "pod",
        revision := some "5",
        data := some { typ := "pod", id := some "p1" } } =
      some (c8state, .renamedDrop)) ∧
    (dispatchMessageM c8state
      { name := some "resource.change", resourceType := some "pod",
        revision := some "5",
        data := some { typ := "pod", id := some "p1" } } =
      some ({ c8state with
          typeStores := [("pod", { typeName := "pod", revision := some 5 })],
          queue := [{ action := .load,
                      typ := "pod",
                      body := some { typ := "pod", id := some "p1" },
                      event := "change" }] }, .handled)) ∧
    (dispatchMessageM c8state
      { name := some "resource.created", resourceType := some "pod",
        revision := some "5",
        data := some { typ := "pod", id := some "p1" } } =
      some (c8state, .unknownDrop)) := by
  refine ⟨?_, ?_, ?_⟩
  · decide
  · decide
  · decide

theorem decorateAllP_data (ts : PerTypeStore) (ds : List IResource) :
    (decorateAllP ts ds).1.map (·.data) = ds := by
  induction ds generalizing ts with
  | nil => rfl
  | cons d rest ih =>
      unfold decorateAllP decorateP
      simp [ih]

theorem decorateAllP_idents_ge (ts : PerTypeStore) (ds : List IResource) :
    ∀ e ∈ (decorateAllP ts ds).1, ts.nextIdent ≤ e.ident := by
  induction ds generalizing ts with
  | nil =>
      intro e he
      cases he
  | cons d rest ih =>
      intro e he
      unfold decorateAllP decorateP at he
      simp only [List.mem_cons] at he
      cases he with
      | inl h => rw [h]
      | inr h =>
          have := ih { ts with nextIdent := ts.nextIdent + 1 } e h
          simp at this
          omega

theorem removeFirst_not_mem [DecidableEq α] (l : List α) (a : α) (h : a ∉ l) :
    removeFirst l a = l := by
  induction l with
  | nil => rfl
  | cons b rest ih =>
      unfold removeFirst
      have hb : b ≠ a := fun hh => h (hh ▸ List.mem_cons_self b rest)
      rw [if_neg hb, ih (fun hh => h (List.mem_cons_of_mem b hh))]

theorem mdel_of_mget_none (m : List (JKey × Entry)) (k : JKey)
    (h : mget m k = none) : mdel m k = m := by
  induction m with
  | nil => rfl
  | cons p rest ih =>
      obtain ⟨k', v'⟩ := p
      unfold mget at h
      by_cases hk : k' = k
      · rw [List.find?_cons_of_pos _ (by simp [hk])] at h
        simp at h
      · rw [List.find?_cons_of_neg _ (by simp [hk])] at h
        unfold mdel
        rw [if_neg hk, ih h]

theorem mget_mset_ne (m : List (JKey × Entry)) (k k' : JKey) (v : Entry)
    (h : k' ≠ k) : mget (mset m k v) k' = mget m k' := by
  induction m with
  | nil =>
      unfold mset mget
      rw [List.find?_cons_of_neg _ (by simp; exact fun hh => h hh.symm)]
  | cons p rest ih =>
      obtain ⟨k0, v0⟩ := p
      by_cases hk : k0 = k
      · subst hk
        unfold mset mget
        rw [if_pos rfl]
        rw [List.find?_cons_of_neg _ (by simp; exact fun hh => h hh.symm),
          List.find?_cons_of_neg _ (by simp; exact fun hh => h hh.symm)]
      · unfold mset mget
        rw [if_neg hk]
        by_cases hk' : k0 = k'
        · rw [List.find?_cons_of_pos _ (by simp [hk']),
            List.find?_cons_of_pos _ (by simp [hk'])]
        · rw [List.find?_cons_of_neg _ (by simp [hk']),
            List.find?_cons_of_neg _ (by simp [hk'])]
          exact ih

theorem mget_msetFold_isSome (pairs : List (IResource × Entry)) :
    ∀ (m : List (JKey × Entry)) (k : JKey),
      (mget (pairs.foldl (fun m p => mset m p.1.id p.2) m) k).isSome =
        ((mget m k).isSome || k ∈ pairs.map (·.1.id) : Bool) := by
  induction pairs with
  | nil =>
      intro m k
      simp
  | cons p rest ih =>
      intro m k
      simp only [List.foldl_cons, List.map_cons, List.mem_cons]
      rw [ih]
      by_cases hk : k = p.1.id
      · subst hk
        rw [mget_mset_self]
        simp
      · rw [mget_mset_ne _ _ _ _ hk]
        simp [hk]

theorem resyncFold_preserve (wantKeys : List String) :
    ∀ (hv : List Entry) (acc : PerTypeStore),
      (∀ o ∈ hv, jsTemplate o.data.id ∉ wantKeys →
        (o ∉ acc.list ∧ mget acc.map o.data.id = none)) →
      ((hv.foldl (fun acc obj =>
          if jsTemplate obj.data.id ∉ wantKeys then (removeP acc (.inl obj)).1
          else acc) acc).list = acc.list ∧
        (hv.foldl (fun acc obj =>
          if jsTemplate obj.data.id ∉ wantKeys then (removeP acc (.inl obj)).1
          else acc) acc).map = acc.map) := by
  intro hv
  induction hv with
  | nil =>
      intro acc _
      exact ⟨rfl, rfl⟩
  | cons o rest ih =>
      intro acc h
      simp only [List.foldl_cons]
      by_cases ho : jsTemplate o.data.id ∉ wantKeys
      · have hco := h o (List.mem_cons_self o rest) ho
        have hacc : (removeP acc (.inl o)).1.list = acc.list ∧
            (removeP acc (.inl o)).1.map = acc.map := by
          unfold removeP
          dsimp only
          exact ⟨removeFirst_not_mem _ _ hco.1, mdel_of_mget_none _ _ hco.2⟩
        rw [if_pos ho]
        have hrest : ∀ o' ∈ rest, jsTemplate o'.data.id ∉ wantKeys →
            (o' ∉ (removeP acc (.inl o)).1.list ∧
              mget (removeP acc (.inl o)).1.map o'.data.id = none) := by
          intro o' ho' hk
          rw [hacc.1, hacc.2]
          exact h o' (List.mem_cons_of_mem o ho') hk
        have := ih (removeP acc (.inl o)).1 hrest
        rw [this.1, this.2, hacc.1, hacc.2]
        exact ⟨rfl, rfl⟩
      · rw [if_neg ho]
        exact ih acc (fun o' ho' hk => h o' (List.mem_cons_of_mem o ho') hk)

theorem find_map_setStore_found (t : String) (c : PerTypeStore)
    (l : List (String × PerTypeStore)) (h : (l.find? (fun p => p.1 = t)).isSome) :
    ((l.map (fun p => if p.1 = t then (t, c) else p)).find? (fun p => p.1 = t)) =
      some (t, c) := by
  induction l with
  | nil => simp [List.find?] at h
  | cons q rest ih =>
      by_cases hq : q.1 = t
      · simp only [List.map_cons, if_pos hq]
        rw [List.find?_cons_of_pos _ (by simp)]
      · simp only [List.map_cons, if_neg hq]
        rw [List.find?_cons_of_neg _ (by simp [hq])]
        rw [List.find?_cons_of_neg _ (by simp [hq])] at h
        exact ih h

theorem storeFor_setTypeStore_self (s : MState) (T : String) (ts ts' : PerTypeStore)
    (hts : storeForM s T = some ts) :
    storeForM (setTypeStore s (normalizeType T) ts') T = some ts' := by
  unfold storeForM at hts ⊢
  unfold setTypeStore
  dsimp only
  have hsome : (s.typeStores.find? (fun p => p.1 = normalizeType T)).isSome := by
    cases hf : s.typeStores.find? (fun p => p.1 = normalizeType T) with
    | none =>
        rw [hf] at hts
        simp at hts
    | some q => rfl
  rw [find_map_setStore_found (normalizeType T) ts' s.typeStores hsome]
  rfl

theorem decorateAllP_length (ts : PerTypeStore) (ds : List IResource) :
    (decorateAllP ts ds).1.length = ds.length := by
  have := decorateAllP_data ts ds
  have h2 := congrArg List.length this
  simpa using h2

theorem resync_reconciles (s : MState) (T : String) (ts : PerTypeStore)
    (fresh : List IResource)
    (hts : storeForM s T = some ts)
    (hbound : ∀ e ∈ ts.list, e.ident < ts.nextIdent) :
    ∃ ts' : PerTypeStore,
      storeForM (resyncWatchM s { resourceType := some T } fresh) T = some ts' ∧
        ts'.list.map (·.data) = fresh ∧
        ∀ k : JKey, (mget ts'.map k).isSome = (decide (k ∈ fresh.map (·.id))) := by
  have hBlist : (loadAllP { ts with requests := ts.requests + 1 } fresh).list =
      (decorateAllP { ts with requests := ts.requests + 1 } fresh).1 := rfl
  have hBmap : (loadAllP { ts with requests := ts.requests + 1 } fresh).map =
      ((fresh.zip (decorateAllP { ts with requests := ts.requests + 1 } fresh).1).foldl
        (fun m p => mset m p.1.id p.2) []) := rfl
  have hlen : fresh.length ≤
      (decorateAllP { ts with requests := ts.requests + 1 } fresh).1.length := by
    rw [decorateAllP_length]
  have hzip : ((fresh.zip
      (decorateAllP { ts with requests := ts.requests + 1 } fresh).1).map
      (fun p => p.1.id)) = fresh.map (·.id) := by
    have hmm : ((fresh.zip
        (decorateAllP { ts with requests := ts.requests + 1 } fresh).1).map
        (fun p => p.1.id)) =
        (((fresh.zip
          (decorateAllP { ts with requests := ts.requests + 1 } fresh).1).map
          Prod.fst).map (fun r => r.id)) := by
      rw [List.map_map]
      rfl
    rw [hmm, List.map_fst_zip fresh _ hlen]
  have hwant : ((loadAllP { ts with requests := ts.requests + 1 } fresh).list.map
      (fun e => jsTemplate e.data.id)) = fresh.map (fun r => jsTemplate r.id) := by
    rw [hBlist]
    have hmm : ((decorateAllP { ts with requests := ts.requests + 1 } fresh).1.map
        (fun e => jsTemplate e.data.id)) =
        (((decorateAllP { ts with requests := ts.requests + 1 } fresh).1.map
          (fun e => e.data)).map (fun r => jsTemplate r.id)) := by
      rw [List.map_map]
      rfl
    rw [hmm, decorateAllP_data]
  have hdom : ∀ k : JKey,
      (mget (loadAllP { ts with requests := ts.requests + 1 } fresh).map k).isSome =
        (decide (k ∈ fresh.map (·.id))) := by
    intro k
    rw [hBmap, mget_msetFold_isSome]
    have hmge : (mget ([] : List (JKey × Entry)) k).isSome = false := rfl
    rw [hmge, Bool.false_or, hzip]
  have hcond : ∀ o ∈ ts.list,
      jsTemplate o.data.id ∉
        ((loadAllP { ts with requests := ts.requests + 1 } fresh).list.map
          (fun e => jsTemplate e.data.id)) →
      (o ∉ (loadAllP { ts with requests := ts.requests + 1 } fresh).list ∧
        mget (loadAllP { ts with requests := ts.requests + 1 } fresh).map
          o.data.id = none) := by
    intro o ho hkey
    constructor
    · rw [hBlist]
      intro hmem
      have hge := decorateAllP_idents_ge { ts with requests := ts.requests + 1 }
        fresh o hmem
      have hb := hbound o ho
      simp only at hge
      omega
    · by_contra hne
      have hsome2 : (mget (loadAllP { ts with requests := ts.requests + 1 }
          fresh).map o.data.id).isSome = true := by
        cases hq : mget (loadAllP { ts with requests := ts.requests + 1 }
            fresh).map o.data.id with
        | none => exact absurd hq hne
        | some q => rfl
      rw [hdom o.data.id] at hsome2
      rw [decide_eq_true_eq] at hsome2
      obtain ⟨r, hr, hrid⟩ := List.mem_map.mp hsome2
      apply hkey
      rw [hwant, ← hrid]
      exact List.mem_map_of_mem (fun r => jsTemplate r.id) hr
  unfold resyncWatchM
  simp only [Option.getD_some]
  rw [hts]
  have h1 : jsTruthyStr (none : Option String) = false := rfl
  simp only [h1, Bool.false_eq_true, if_false]
  unfold findAllP
  simp only [not_true, false_and, if_false]
  refine ⟨_, storeFor_setTypeStore_self s T ts _ hts, ?_, ?_⟩
  · obtain ⟨hfl, hfm⟩ := resyncFold_preserve
      ((loadAllP { ts with requests := ts.requests + 1 } fresh).list.map
        (fun e => jsTemplate e.data.id))
      ts.list
      ({ loadAllP { ts with requests := ts.requests + 1 } fresh with
        watchesIssued :=
          (loadAllP { ts with requests := ts.requests + 1 } fresh).watchesIssued ++
            [{ typ := some (loadAllP { ts with requests := ts.requests + 1 }
              fresh).typeName }] } : PerTypeStore)
      (fun o ho hk => hcond o ho hk)
    rw [hfl]
    have hdata : (({ loadAllP { ts with requests := ts.requests + 1 } fresh with
        watchesIssued :=
          (loadAllP { ts with requests := ts.requests + 1 } fresh).watchesIssued ++
            [{ typ := some (loadAllP { ts with requests := ts.requests + 1 }
              fresh).typeName }] } : PerTypeStore)).list = (decorateAllP { ts with requests := ts.requests + 1 } fresh).1 := rfl
    rw [hdata, decorateAllP_data]
  · obtain ⟨hfl, hfm⟩ := resyncFold_preserve
      ((loadAllP { ts with requests := ts.requests + 1 } fresh).list.map
        (fun e => jsTemplate e.data.id))
      ts.list
      ({ loadAllP { ts with requests := ts.requests + 1 } fresh with
        watchesIssued :=
          (loadAllP { ts with requests := ts.requests + 1 } fresh).watchesIssued ++
            [{ typ := some (loadAllP { ts with requests := ts.requests + 1 }
              fresh).typeName }] } : PerTypeStore)
      (fun o ho hk => hcond o ho hk)
    intro k
    rw [hfm]
    exact hdom k

/-- **C3**: resync reconciliation.  For a registered per-type store, after
`resyncWatch` runs for the whole type and the forced re-fetch returns the
fresh set, the type cache holds exactly the fresh resources (list equal to
the fresh data in order, map defined exactly on the fresh ids); any
previously cached resource whose id is absent from the fresh set — such as
`b` when `{a,b,c}` is resynced against `{a,c}` — is gone from both list
and map. -/
theorem claim_C3_resync_reconciliation :
    ∀ (s : MState) (T : String) (ts : PerTypeStore) (fresh : List IResource),
      storeForM s T = some ts →
      (∀ e ∈ ts.list, e.ident < ts.nextIdent) →
      ∃ ts' : PerTypeStore,
        storeForM (resyncWatchM s { resourceType := some T } fresh) T = some ts' ∧
        ts'.list.map (·.data) = fresh ∧
        (∀ k : JKey, (mget ts'.map k).isSome = (decide (k ∈ fresh.map (·.id)))) ∧
        (∀ k : JKey, k ∉ fresh.map (·.id) → mget ts'.map k = none) ∧
        (∀ d : IResource, d ∉ fresh → d ∉ ts'.list.map (·.data)) := by
  intro s T ts fresh hts hbound
  obtain ⟨ts', h1, h2, h3⟩ := resync_reconciles s T ts fresh hts hbound
  refine ⟨ts', h1, h2, h3, ?_, ?_⟩
  · intro k hk
    have := h3 k
    rw [decide_eq_false hk] at this
    cases hq : mget ts'.map k with
    | none => rfl
    | some q =>
        rw [hq] at this
        simp at this
  · intro d hd
    rw [h2]
    exact hd

theorem claim_C3_resync_reconciliation_witness :
    ∃ ts' : PerTypeStore,
      storeForM
        (resyncWatchM
          { typeStores := [("pod",
            { typeName := "pod",
              list := [{ ident := 0, data := { typ := "pod", id := some "a" } },
                       { ident := 1, data := { typ := "pod", id := some "b" } },
                       { ident := 2, data := { typ := "pod", id := some "c" } }],
              map := [(some "a", { ident := 0, data := { typ := "pod", id := some "a" } }),
                      (some "b", { ident := 1, data := { typ := "pod", id := some "b" } }),
                      (some "c", { ident := 2, data := { typ := "pod", id := some "c" } })],
              nextIdent := 3 })] }
          { resourceType := some "pod" }
          [{ typ := "pod", id := some "a" }, { typ := "pod", id := some "c" }])
        "pod" = some ts' ∧
      ts'.list.map (·.data) =
        [{ typ := "pod", id := some "a" }, { typ := "pod", id := some "c" }] ∧
      (∀ k : JKey, (mget ts'.map k).isSome =
        (decide (k ∈ ([{ typ := "pod", id := some "a" },
          { typ := "pod", id := some "c" }] : List IResource).map (·.id)))) ∧
      (∀ k : JKey, k ∉ ([{ typ := "pod", id := some "a" },
          { typ := "pod", id := some "c" }] : List IResource).map (·.id) →
        mget ts'.map k = none) ∧
      (∀ d : IResource, d ∉ ([{ typ := "pod", id := some "a" },
          { typ := "pod", id := some "c" }] : List IResource) →
        d ∉ ts'.list.map (·.data)) :=
  claim_C3_resync_reconciliation
    { typeStores := [("pod",
      { typeName := "pod",
        list := [{ ident := 0, data := { typ := "pod", id := some "a" } },
                 { ident := 1, data := { typ := "pod", id := some "b" } },
                 { ident := 2, data := { typ := "pod", id := some "c" } }],
        map := [(some "a", { ident := 0, data := { typ := "pod", id := some "a" } }),
                (some "b", { ident := 1, data := { typ := "pod", id := some "b" } }),
                (some "c", { ident := 2, data := { typ := "pod", id := some "c" } })],
        nextIdent := 3 })] }
    "pod"
    { typeName := "pod",
      list := [{ ident := 0, data := { typ := "pod", id := some "a" } },
               { ident := 1, data := { typ := "pod", id := some "b" } },
               { ident := 2, data := { typ := "pod", id := some "c" } }],
      map := [(some "a", { ident := 0, data := { typ := "pod", id := some "a" } }),
              (some "b", { ident := 1, data := { typ := "pod", id := some "b" } }),
              (some "c", { ident := 2, data := { typ := "pod", id := some "c" } })],
      nextIdent := 3 }
    [{ typ := "pod", id := some "a" }, { typ := "pod", id := some "c" }]
    (by decide) (by decide)

theorem nextRV_congr (s base : MState) (htypes : s.types = base.types)
    (t : String) (id : JKey) : nextRV s t id = nextRV base t id := by
  unfold nextRV byIdM lookupType
  rw [htypes]

theorem schemaForE_congr (s base : MState) (htypes : s.types = base.types)
    (t : String) : schemaForE s t = schemaForE base t := by
  unfold schemaForE schemaFor0 schemaNameM lookupType
  rw [htypes]

theorem finalizeRV_pos (rev : Option Int) (n : Int)
    (h : (match rev with
          | some k => if k > 0 then some k else none
          | none => none) = some n) : 0 < n := by
  cases rev with
  | none => exact absurd h (by simp)
  | some k =>
      simp only [] at h
      by_cases hk : k > 0
      · rw [if_pos hk] at h
        injection h with h2
        omega
      · rw [if_neg hk] at h
        exact absurd h (by simp)

theorem nextRV_pos (s : MState) (t : String) (id : JKey) (n : Int)
    (h : nextRV s t id = some n) : 0 < n := by
  unfold nextRV at h
  exact finalizeRV_pos _ n h

theorem equiv_refl (e : WatchDesc) : watchesAreEquivalent e e = true := by
  unfold watchesAreEquivalent
  simp

theorem equiv_norm_obj (e b : WatchDesc) :
    watchesAreEquivalent
      { typ := some (normalizeType (e.typ.getD "")), id := e.id,
        selector := e.selector, ns := e.ns } b =
      watchesAreEquivalent e b := by
  unfold watchesAreEquivalent
  simp only [Option.getD_some, normalizeType_idem]

theorem watchM_reissue (base s : MState) (e : WatchDesc)
    (htypes : s.types = base.types)
    (hin : s.inError = [])
    (hlim : s.limitNamespace = none)
    (hsock : s.hasSocket = true) (hok : s.socketSendOk = true)
    (hstop : e.stop = false) (hforce : e.force = false)
    (hnostart : ∀ b ∈ s.started, watchesAreEquivalent e b = false) :
    watchM s { e with revision := none } =
      { s with sent := s.sent ++ [reissueMsg base e] } := by
  have hcw : canWatchM s { e with revision := none } = true := by
    unfold canWatchM
    rw [hin]
    rfl
  unfold watchM
  rw [hlim]
  have hjn : jsTruthyStr (none : Option String) = false := rfl
  rw [hjn]
  simp only [Bool.false_eq_true, if_false]
  rw [hcw, hstop, hforce]
  simp only [Bool.false_eq_true, not_false_iff, not_true, true_and, and_false,
    false_and, if_false]
  have hws : watchStartedM s
      { typ := some (normalizeType (e.typ.getD "")), ns := e.ns, id := e.id,
        selector := e.selector } = false := by
    unfold watchStartedM
    rw [List.find?_eq_none.mpr]
    · rfl
    · intro b hb
      rw [equiv_norm_obj, hnostart b hb]
      exact Bool.false_ne_true
  rw [hws]
  simp only [Bool.false_eq_true, if_false]
  rw [nextRV_congr s base htypes]
  unfold sendM
  rw [hsock, hok]
  simp only [Bool.and_self, eq_self_iff_true, if_true]
  unfold reissueMsg
  cases hn : nextRV base (normalizeType (e.typ.getD "")) e.id with
  | none =>
      rw [hlim]
      rfl
  | some n =>
      have hpos : (0 : Int) < n := nextRV_pos base _ e.id n hn
      have hne : (n : Int) ≠ 0 := by omega
      have htr : jsTruthyRev (Option.map JsRev.num (some n)) = true := by
        simp [jsTruthyRev, hne]
      rw [htr, if_pos rfl]
      rw [hlim]
      rfl

theorem reconnectGo_spec (base : MState) (ents : List WatchDesc) :
    ∀ s : MState, s.types = base.types → s.inError = [] →
    s.limitNamespace = none → s.hasSocket = true → s.socketSendOk = true →
    s.started = ents →
    (∀ e ∈ ents, ∃ sc, schemaForE base (e.typ.getD "") = .ok (some sc)) →
    (∀ e ∈ ents, e.stop = false ∧ e.force = false) →
    ents.Pairwise (fun a b => watchesAreEquivalent a b = false) →
    reconnectGo ents s =
      .ok { s with started := [],
                   sent := s.sent ++ ents.map (reissueMsg base) } := by
  induction ents with
  | nil =>
      intro s htypes hin hlim hsock hok hstarted hsch hsf hpw
      unfold reconnectGo
      simp only [List.map_nil, List.append_nil]
      rw [← hstarted]
  | cons e rest ih =>
      intro s htypes hin hlim hsock hok hstarted hsch hsf hpw
      unfold reconnectGo
      obtain ⟨sc, hsc⟩ := hsch e (List.mem_cons_self e rest)
      rw [schemaForE_congr s base htypes, hsc]
      have hrem : removeFirst (e :: rest) e = rest := by
        simp [removeFirst]
      have hs1 : setWatchStoppedM s e = { s with started := rest } := by
        unfold setWatchStoppedM existingWatchForM
        rw [hstarted, List.find?_cons_of_pos _ (equiv_refl e)]
        show { s with started := removeFirst (e :: rest) e } = _
        rw [hrem]
      have hnostart : ∀ b ∈ rest, watchesAreEquivalent e b = false :=
        (List.pairwise_cons.mp hpw).1
      have hw := watchM_reissue base { s with started := rest } e htypes hin
        hlim hsock hok (hsf e (List.mem_cons_self e rest)).1
        (hsf e (List.mem_cons_self e rest)).2 hnostart
      have hih := ih
        { s with started := rest, sent := s.sent ++ [reissueMsg base e] }
        htypes hin hlim hsock hok rfl
        (fun b hb => hsch b (List.mem_cons_of_mem e hb))
        (fun b hb => hsf b (List.mem_cons_of_mem e hb))
        (List.pairwise_cons.mp hpw).2
      show reconnectGo rest (watchM (setWatchStoppedM s e)
        { e with revision := none }) = _
      rw [hs1, hw]
      show reconnectGo rest
        { s with started := rest, sent := s.sent ++ [reissueMsg base e] } = _
      rw [hih]
      simp only [List.map_cons, List.append_assoc, List.singleton_append]

/-- C4: counterexample — on `c4state` (one started pod watch whose
descriptor stored revision `100`, one cached pod at resourceVersion `5`),
`reconnectWatches` reissues the watch but the outbound subscribe frame
carries `resourceVersion = "5"`, which is not the absent field the claim
requires: `watch` refills the deleted revision from `nextResourceVersion`
before sending. -/
theorem claim_C4_reconnect_counterexample :
    reconnectWatchesM c4state =
      .ok { c4state with
            started := [],
            sent := [{ resourceType := "pod", resourceVersion := some "5" }] } ∧
      some "5" ≠ (none : Option String) := by
  exact ⟨rfl, by decide⟩

/-- C4 (amended): after a reconnect, every started watch descriptor whose
type has a schema (none in error, stop/force unset, descriptors pairwise
non-equivalent) is reissued exactly once with its stored `revision`
discarded; the reissued subscribe frame carries the recomputed
`nextResourceVersion` of the type when that is a positive number, and no
resourceVersion field otherwise (`reissueMsg` states the frame). -/
theorem claim_C4_reconnect_amended (s : MState)
    (hin : s.inError = []) (hlim : s.limitNamespace = none)
    (hsock : s.hasSocket = true) (hok : s.socketSendOk = true)
    (hsch : ∀ e ∈ s.started, ∃ sc,
      schemaForE s (e.typ.getD "") = .ok (some sc))
    (hsf : ∀ e ∈ s.started, e.stop = false ∧ e.force = false)
    (hpw : s.started.Pairwise (fun a b => watchesAreEquivalent a b = false)) :
    reconnectWatchesM s =
      .ok { s with started := [],
                   sent := s.sent ++ s.started.map (reissueMsg s) } := by
  unfold reconnectWatchesM
  exact reconnectGo_spec s s.started s rfl hin hlim hsock hok rfl hsch hsf hpw

theorem claim_C4_reconnect_amended_witness :
    reconnectWatchesM c4state =
      .ok { c4state with
            started := [],
            sent := c4state.sent ++ c4state.started.map (reissueMsg c4state) } :=
  claim_C4_reconnect_amended c4state rfl rfl rfl rfl
    (fun e he => by
      simp only [c4state, List.mem_singleton] at he
      subst he
      exact ⟨podSchemaEntry, rfl⟩)
    (fun e he => by
      simp only [c4state, List.mem_singleton] at he
      subst he
      exact ⟨rfl, rfl⟩)
    (by
      simp only [c4state]
      exact List.pairwise_singleton _ _)
